import Mathlib

/-!
Verification development for the assistant backend's task orchestration core.

The definitions below are a shallow embedding of the Python sources:
  * `src/backend/services/task_queue.py`   — per-container FIFO scheduler
  * `src/backend/services/claude_service.py` — agentic plan/approve/execute state machine
  * `src/backend/services/git_service.py`  — worktree resolver
  * `src/backend/services/ai/local.py` and `ai/gemini.py` — AI session history

Modelling conventions:
  * Python dicts keyed by ids become total functions `Nat → α` (or `String → Option Nat`)
    together with an explicit allocation counter; `upd` is pointwise update.
  * Task ids (uuid strings in the source) are modelled as creation indices, so the
    numeric order of ids coincides with enqueue order.
  * Shared mutable objects (`ContainerQueue` dataclass instances, `asyncio.Lock`s)
    live in explicit heaps indexed by `Nat`, because `clear_queue` copies *references*
    (`lock=cq.lock`, `running_task=cq.running_task`) into a fresh object while an
    active `process_queue` coroutine may still hold the old object.
  * The cooperative asyncio scheduler is modelled as a small-step semantics: each
    atomic segment of code between suspension points is one event.  `await lock.acquire()`
    on an uncontended `asyncio.Lock` and `await queue.put(..)` on an unbounded queue
    do not yield to the event loop, so the dequeue/skip-check/lock/mark-running segment
    of `process_queue` is a single atomic event.
  * `datetime.utcnow()` is a logical clock `now` bumped once per event.
-/

/-- Pointwise update of a `Nat`-indexed map. -/
def upd {α : Type} (f : Nat → α) (k : Nat) (v : α) : Nat → α :=
  fun i => if i = k then v else f i

/-- Pointwise update of a `String`-indexed map. -/
def updS {α : Type} (f : String → α) (k : String) (v : α) : String → α :=
  fun i => if i = k then v else f i

namespace TaskQueue

/-- Embeds `TaskStatus` from task_queue.py. -/
inductive TStatus where
  | queued
  | running
  | completed
  | failed
  | cancelled
deriving DecidableEq

/-- Embeds `QueuedTask` from task_queue.py (timestamps are logical-clock readings). -/
structure QTask where
  container : String
  taskType : String
  status : TStatus
  startedAt : Option Nat
  completedAt : Option Nat
  result : Option String
  error : Option String
deriving DecidableEq

/-- Embeds `ContainerQueue` from task_queue.py.  `container` is the container the object was
created for (a ghost annotation: the Python object is always reached through
`_container_queues[container_id]` or a captured reference; no code branches on it).
`lockRef` is a reference into the lock heap because `clear_queue` copies the lock
object, not its state. -/
structure CQ where
  container : String
  queue : List Nat
  lockRef : Nat
  runningTask : Option Nat
  processorRunning : Bool
deriving DecidableEq

/-- Control point of one `process_queue` coroutine between suspension points. -/
inductive PState where
  | notStarted
  | waiting (r : Nat)
  | acquiring (r : Nat) (t : Nat)
  | handling (r : Nat) (t : Nat)
  | done
deriving DecidableEq

def PState.isStarted : PState → Bool
  | .waiting _ => true
  | .acquiring _ _ => true
  | .handling _ _ => true
  | _ => false

def PState.isHandling : PState → Bool
  | .handling _ _ => true
  | _ => false

/-- One asyncio task created by `asyncio.create_task(process_queue(...))`. -/
structure Proc where
  c : String
  st : PState
deriving DecidableEq

/-- Global state of task_queue.py: `_all_tasks`, `_container_queues`, the heap of
`ContainerQueue` objects and `asyncio.Lock`s, and the set of processor coroutines. -/
structure St where
  ntasks : Nat
  tasks : Nat → QTask
  nheap : Nat
  heap : Nat → CQ
  nlocks : Nat
  locks : Nat → Bool
  cmap : String → Option Nat
  nprocs : Nat
  procs : Nat → Proc
  now : Nat

def defaultTask : QTask := ⟨"", "", .queued, none, none, none, none⟩

def st0 : St where
  ntasks := 0
  tasks := fun _ => defaultTask
  nheap := 0
  heap := fun _ => ⟨"", [], 0, none, false⟩
  nlocks := 0
  locks := fun _ => false
  cmap := fun _ => none
  nprocs := 0
  procs := fun _ => ⟨"", .done⟩
  now := 0

/-- Embeds `_get_container_queue`: get or create the queue object for a container. -/
def _get_container_queue (s : St) (c : String) : St × Nat :=
  match s.cmap c with
  | some r => (s, r)
  | none =>
      ({ s with
          nheap := s.nheap + 1
          heap := upd s.heap s.nheap ⟨c, [], s.nlocks, none, false⟩
          nlocks := s.nlocks + 1
          locks := upd s.locks s.nlocks false
          cmap := updS s.cmap c (some s.nheap) }, s.nheap)

/-- Embeds `queue_task`: create a task (status QUEUED) and append it to the container's queue.
Returns the new task's id. -/
def queue_task (s : St) (c ty : String) : St × Nat :=
  let tid := s.ntasks
  let s1 : St := { s with
    ntasks := tid + 1
    tasks := upd s.tasks tid ⟨c, ty, .queued, none, none, none, none⟩ }
  let q := _get_container_queue s1 c
  ({ q.1 with
      heap := upd q.1.heap q.2 ({ q.1.heap q.2 with queue := (q.1.heap q.2).queue ++ [tid] }) },
   tid)

/-- Embeds `cancel_task`: cancel a QUEUED task; returns whether it was cancelled. -/
def cancel_task (s : St) (tid : Nat) : St × Bool :=
  if tid < s.ntasks then
    if (s.tasks tid).status = .queued then
      let t' : QTask := { s.tasks tid with status := .cancelled, completedAt := some s.now }
      ({ s with tasks := upd s.tasks tid t' }, true)
    else (s, false)
  else (s, false)

/-- Number of tasks of container `c` currently in status `st`. -/
def countStatus (s : St) (c : String) (st : TStatus) : Nat :=
  (List.range s.ntasks).countP
    (fun i => decide ((s.tasks i).container = c ∧ (s.tasks i).status = st))

/-- Embeds `clear_queue`: cancel every QUEUED task of the container and install a fresh
`ContainerQueue` that copies the lock reference, running-task reference and
`processor_running` flag of the old object.  Returns the number cancelled. -/
def clear_queue (s : St) (c : String) : St × Nat :=
  match s.cmap c with
  | none => (s, 0)
  | some r =>
      let n := countStatus s c .queued
      let old := s.heap r
      ({ s with
          tasks := fun i =>
            if i < s.ntasks ∧ (s.tasks i).container = c ∧ (s.tasks i).status = .queued
            then { s.tasks i with status := .cancelled, completedAt := some s.now }
            else s.tasks i
          nheap := s.nheap + 1
          heap := upd s.heap s.nheap
            ⟨c, [], old.lockRef, old.runningTask, old.processorRunning⟩
          cmap := updS s.cmap c (some s.nheap) }, n)

/-- Summary of the running task in `get_queue_status`'s result. -/
structure RunSummary where
  id : Nat
  taskType : String
  startedAt : Option Nat
deriving DecidableEq

/-- Result dict of `get_queue_status`. -/
structure QStat where
  containerId : String
  queued : Nat
  running : Nat
  completed : Nat
  failed : Nat
  cancelled : Nat
  runningTask : Option RunSummary
deriving DecidableEq

/-- Embeds `get_queue_status`: point-in-time snapshot; uses `_container_queues.get`, so it
never creates scheduler state (it is a pure function of the state here). -/
def get_queue_status (s : St) (c : String) : QStat :=
  let queued := countStatus s c .queued
  let completed := countStatus s c .completed
  let failed := countStatus s c .failed
  let cancelled := countStatus s c .cancelled
  match s.cmap c with
  | none => ⟨c, queued, 0, completed, failed, cancelled, none⟩
  | some r =>
      match (s.heap r).runningTask with
      | none => ⟨c, queued, 0, completed, failed, cancelled, none⟩
      | some t =>
          ⟨c, queued, 1, completed, failed, cancelled,
            some ⟨t, (s.tasks t).taskType, (s.tasks t).startedAt⟩⟩

/-- Embeds `start_processor`: create a processor coroutine unless the current queue object's
`processor_running` flag is set. -/
def start_processor (s : St) (c : String) : St :=
  let q := _get_container_queue s c
  if (q.1.heap q.2).processorRunning then q.1
  else { q.1 with
          nprocs := q.1.nprocs + 1
          procs := upd q.1.procs q.1.nprocs ⟨c, .notStarted⟩ }

/-- First atomic segment of `process_queue`: capture the current queue object,
return if its flag is set, otherwise set the flag and enter the loop. -/
def procRunStep (s : St) (p : Nat) : St :=
  if p < s.nprocs then
    match (s.procs p).st with
    | .notStarted =>
        let c := (s.procs p).c
        let q := _get_container_queue s c
        if (q.1.heap q.2).processorRunning then
          { q.1 with procs := upd q.1.procs p ⟨c, .done⟩ }
        else
          { q.1 with
              heap := upd q.1.heap q.2 ({ q.1.heap q.2 with processorRunning := true })
              procs := upd q.1.procs p ⟨c, .waiting q.2⟩ }
    | _ => s
  else s

/-- Resumption of `process_queue` after `cq.queue.get()` yields an item: pop it,
skip it if already cancelled, otherwise acquire the lock (no suspension when the
lock is free) and mark the task running. -/
def procNextStep (s : St) (p : Nat) : St :=
  if p < s.nprocs then
    match (s.procs p).st with
    | .waiting r =>
        match (s.heap r).queue with
        | [] => s
        | t :: rest =>
            if (s.tasks t).status = .cancelled then
              { s with heap := upd s.heap r ({ s.heap r with queue := rest }) }
            else if s.locks ((s.heap r).lockRef) then
              { s with
                  heap := upd s.heap r ({ s.heap r with queue := rest })
                  procs := upd s.procs p ⟨(s.procs p).c, .acquiring r t⟩ }
            else
              { s with
                  heap := upd s.heap r ({ s.heap r with queue := rest, runningTask := some t })
                  locks := upd s.locks ((s.heap r).lockRef) true
                  tasks := upd s.tasks t
                    ({ s.tasks t with status := .running, startedAt := some s.now })
                  procs := upd s.procs p ⟨(s.procs p).c, .handling r t⟩ }
    | _ => s
  else s

/-- Resumption of a processor that was blocked on the container lock. -/
def procAcquireStep (s : St) (p : Nat) : St :=
  if p < s.nprocs then
    match (s.procs p).st with
    | .acquiring r t =>
        if s.locks ((s.heap r).lockRef) then s
        else
          { s with
              heap := upd s.heap r ({ s.heap r with runningTask := some t })
              locks := upd s.locks ((s.heap r).lockRef) true
              tasks := upd s.tasks t
                ({ s.tasks t with status := .running, startedAt := some s.now })
              procs := upd s.procs p ⟨(s.procs p).c, .handling r t⟩ }
    | _ => s
  else s

/-- Resumption after `handler(task)` returns (`ok = true`) or raises (`ok = false`):
record the terminal status, clear the running-task marker, release the lock. -/
def procFinishStep (s : St) (p : Nat) (ok : Bool) (err : String) : St :=
  if p < s.nprocs then
    match (s.procs p).st with
    | .handling r t =>
        { s with
            tasks := upd s.tasks t
              ({ s.tasks t with
                  status := if ok then .completed else .failed
                  error := if ok then (s.tasks t).error else some err
                  completedAt := some s.now })
            heap := upd s.heap r ({ s.heap r with runningTask := none })
            locks := upd s.locks ((s.heap r).lockRef) false
            procs := upd s.procs p ⟨(s.procs p).c, .waiting r⟩ }
    | _ => s
  else s

/-- Resumption after the 1-second `wait_for` timeout with an empty queue: clear the
captured object's `processor_running` flag (the `finally` block) and exit. -/
def procTimeoutStep (s : St) (p : Nat) : St :=
  if p < s.nprocs then
    match (s.procs p).st with
    | .waiting r =>
        if (s.heap r).queue = [] then
          { s with
              heap := upd s.heap r ({ s.heap r with processorRunning := false })
              procs := upd s.procs p ⟨(s.procs p).c, .done⟩ }
        else s
    | _ => s
  else s

/-- Events of the cooperative scheduler: one event per atomic code segment. -/
inductive Ev where
  | enqueue (c ty : String)
  | startP (c : String)
  | cancel (tid : Nat)
  | clear (c : String)
  | procRun (p : Nat)
  | procNext (p : Nat)
  | procAcquire (p : Nat)
  | procFinish (p : Nat) (ok : Bool) (err : String)
  | procTimeout (p : Nat)

def stepEv (s : St) (e : Ev) : St :=
  match e with
  | .enqueue c ty => (queue_task s c ty).1
  | .startP c => start_processor s c
  | .cancel tid => (cancel_task s tid).1
  | .clear c => (clear_queue s c).1
  | .procRun p => procRunStep s p
  | .procNext p => procNextStep s p
  | .procAcquire p => procAcquireStep s p
  | .procFinish p ok err => procFinishStep s p ok err
  | .procTimeout p => procTimeoutStep s p

def step (s : St) (e : Ev) : St :=
  let s' := stepEv s e
  { s' with now := s'.now + 1 }

def run (tr : List Ev) : St :=
  tr.foldl step st0

/-- Number of processor coroutines that have entered the loop and not exited. -/
def activeProcs (s : St) : Nat :=
  (List.range s.nprocs).countP (fun p => (s.procs p).st.isStarted)


/-- Statuses a task can only reach by having been dispatched to the handler. -/
def startedS (st : TStatus) : Prop :=
  st = .running ∨ st = .completed ∨ st = .failed

/-- Terminal statuses of a `QueuedTask`. -/
def terminalS (st : TStatus) : Prop :=
  st = .completed ∨ st = .failed ∨ st = .cancelled

instance (st : TStatus) : Decidable (startedS st) := by unfold startedS; infer_instance

instance (st : TStatus) : Decidable (terminalS st) := by unfold terminalS; infer_instance

/-- Well-formedness of one processor coroutine's control state.  The `acquiring`
state (blocked on the container lock between dequeue and marking running) is
unreachable: the lock is free whenever the container's unique processor dequeues. -/
def ProcOK (s : St) (pr : Proc) : Prop :=
  match pr.st with
  | .notStarted => True
  | .waiting r => r < s.nheap ∧ (s.heap r).container = pr.c
  | .acquiring _ _ => False
  | .handling r t =>
      r < s.nheap ∧ (s.heap r).container = pr.c ∧ t < s.ntasks ∧
      (s.tasks t).container = pr.c ∧ (s.tasks t).status = .running
  | .done => True

/-- The inductive invariant of the scheduler state, maintained by every event. -/
structure Inv (s : St) : Prop where
  hCmap : ∀ c r, s.cmap c = some r → r < s.nheap ∧ (s.heap r).container = c
  hOrphan : ∀ r, r < s.nheap → (s.cmap ((s.heap r).container)).isSome
  hQ : ∀ r, r < s.nheap → ∀ t ∈ (s.heap r).queue,
        t < s.ntasks ∧ (s.tasks t).container = (s.heap r).container ∧
        ((s.tasks t).status = .queued ∨ (s.tasks t).status = .cancelled)
  hSorted : ∀ r, r < s.nheap → (s.heap r).queue.Pairwise (· < ·)
  hDisj : ∀ r r', r < s.nheap → r' < s.nheap → ∀ t,
        t ∈ (s.heap r).queue → t ∈ (s.heap r').queue → r = r'
  hStale : ∀ r, r < s.nheap → s.cmap ((s.heap r).container) ≠ some r →
        ∀ t ∈ (s.heap r).queue, (s.tasks t).status = .cancelled
  hLockBound : ∀ r, r < s.nheap → (s.heap r).lockRef < s.nlocks
  hLockSame : ∀ r r', r < s.nheap → r' < s.nheap →
        (s.heap r).container = (s.heap r').container →
        (s.heap r).lockRef = (s.heap r').lockRef
  hLockInj : ∀ r r', r < s.nheap → r' < s.nheap →
        (s.heap r).lockRef = (s.heap r').lockRef →
        (s.heap r).container = (s.heap r').container
  hProc : ∀ p, p < s.nprocs → ProcOK s (s.procs p)
  hOne : ∀ p q, p < s.nprocs → q < s.nprocs → p ≠ q →
        (s.procs p).st.isStarted = true → (s.procs q).st.isStarted = true →
        (s.procs p).c ≠ (s.procs q).c
  hFlag : ∀ p, p < s.nprocs → (s.procs p).st.isStarted = true →
        ∃ r, s.cmap ((s.procs p).c) = some r ∧ (s.heap r).processorRunning = true
  hRun : ∀ t, t < s.ntasks → (s.tasks t).status = .running →
        ∃ p, p < s.nprocs ∧ ∃ r, (s.procs p).st = .handling r t
  hLockIff : ∀ c r, s.cmap c = some r →
        (s.locks ((s.heap r).lockRef) = true ↔
          ∃ p, p < s.nprocs ∧ (s.procs p).c = c ∧ (s.procs p).st.isHandling = true)
  hQIn : ∀ t, t < s.ntasks → (s.tasks t).status = .queued →
        ∃ r, r < s.nheap ∧ t ∈ (s.heap r).queue
  hOrder : ∀ i j, i < s.ntasks → j < s.ntasks → i < j →
        (s.tasks i).container = (s.tasks j).container →
        startedS ((s.tasks j).status) → terminalS ((s.tasks i).status)
end TaskQueue

namespace Claude

/-- Embeds `TaskStatus` from claude_service.py. -/
inductive CStatus where
  | planning
  | pendingApproval
  | running
  | completed
  | failed
  | denied
deriving DecidableEq

/-- The `.value` strings of the Python enum. -/
def CStatus.value : CStatus → String
  | .planning => "planning"
  | .pendingApproval => "pending_approval"
  | .running => "running"
  | .completed => "completed"
  | .failed => "failed"
  | .denied => "denied"

/-- Embeds `ClaudeTask` from claude_service.py. -/
structure CTask where
  id : Nat
  prompt : String
  containerId : String
  branch : Option String
  plan : Option String
  status : CStatus
  result : Option String
  error : Option String
deriving DecidableEq

/-- The `_tasks` registry; ids are creation indices. -/
structure CReg where
  n : Nat
  tasks : Nat → CTask

def reg0 : CReg where
  n := 0
  tasks := fun _ => ⟨0, "", "main", none, none, .planning, none, none⟩

/-- Outcome of the planning subprocess in `start_task` (the oracle for the
external `claude` CLI call): normal exit 0 with stdout, non-zero exit with
stderr, `asyncio.TimeoutError`, `FileNotFoundError`, or any other exception. -/
inductive PlanOutcome where
  | success (stdout : String)
  | nonzero (stderr : String)
  | timedOut
  | notFound
  | raised (msg : String)

/-- Embeds `start_task`: register a PLANNING task, run the planner, and transition to
PENDING_APPROVAL (storing the plan) or FAILED (storing the error message). -/
def start_task (reg : CReg) (prompt containerId : String) (branch : Option String)
    (o : PlanOutcome) : CReg × CTask :=
  let tid := reg.n
  let t0 : CTask := ⟨tid, prompt, containerId, branch, none, .planning, none, none⟩
  let t1 : CTask :=
    match o with
    | .success out => { t0 with plan := some out.trim, status := .pendingApproval }
    | .nonzero err =>
        let e := if err.trim = "" then "Claude planning failed" else err.trim
        { t0 with status := .failed, error := some e }
    | .timedOut => { t0 with status := .failed, error := some "Claude planning timed out" }
    | .notFound =>
        { t0 with status := .failed, error := some "Claude CLI not found. Is it installed?" }
    | .raised m => { t0 with status := .failed, error := some m }
  ({ n := tid + 1, tasks := upd reg.tasks tid t1 }, t1)

/-- Outcome of the execution subprocess in `confirm_task`. -/
inductive ExecOutcome where
  | success (stdout : String)
  | nonzero (stderr : String)
  | raised (msg : String)

/-- Messages sent over the websocket by `confirm_task`. -/
inductive WsMsg where
  | claudeError (containerId : String) (taskId : Nat) (error : String)
  | claudeComplete (containerId : String) (taskId : Nat) (result : String)
deriving DecidableEq

/-- Embeds `confirm_task` up to its suspension at `await proc.communicate()`
(claude_service.py:193-226): on an unknown task or a task not in PENDING_APPROVAL,
send an error naming the actual status and change nothing — no execution is spawned;
otherwise set the task's status to RUNNING and spawn the execution subprocess.  The
returned Bool says whether an execution is now in flight.  main.py runs `confirm_task`
as a background `asyncio.create_task` and keeps serving messages, so other handlers —
in particular `claude_deny`, hence `deny_task` — run between this segment and the
resumption `confirm_task_finish`. -/
def confirm_task_begin (reg : CReg) (tid : Nat) : CReg × List WsMsg × Bool :=
  if tid < reg.n then
    let t := reg.tasks tid
    if t.status = .pendingApproval then
      ({ reg with tasks := upd reg.tasks tid { t with status := .running } }, [], true)
    else
      (reg, [.claudeError t.containerId tid
        ("Task is not pending approval (status: " ++ t.status.value ++ ")")], false)
  else
    (reg, [.claudeError "main" tid "Task not found"], false)

/-- Embeds the resumption of `confirm_task` after `await proc.communicate()` — the wait
has no timeout (claude_service.py:226-258).  It re-reads the task and, whatever its
current status (it may have been set to DENIED by an interleaved `deny_task` while the
subprocess ran), unconditionally writes COMPLETED with the trimmed stdout, or FAILED
with the error, and sends the matching notification. -/
def confirm_task_finish (reg : CReg) (tid : Nat) (o : ExecOutcome) : CReg × List WsMsg :=
  let t := reg.tasks tid
  match o with
  | .success out =>
      let t' : CTask := { t with status := .completed, result := some out.trim }
      ({ reg with tasks := upd reg.tasks tid t' },
       [.claudeComplete t.containerId tid out.trim])
  | .nonzero err =>
      let e := if err.trim = "" then "Claude execution failed" else err.trim
      let t' : CTask := { t with status := .failed, error := some e }
      ({ reg with tasks := upd reg.tasks tid t' }, [.claudeError t.containerId tid e])
  | .raised m =>
      let t' : CTask := { t with status := .failed, error := some m }
      ({ reg with tasks := upd reg.tasks tid t' }, [.claudeError t.containerId tid m])

/-- Embeds `deny_task`: mark the task DENIED whatever its current status; true iff found. -/
def deny_task (reg : CReg) (tid : Nat) : CReg × Bool :=
  if tid < reg.n then
    let t' : CTask := { reg.tasks tid with status := .denied }
    ({ reg with tasks := upd reg.tasks tid t' }, true)
  else (reg, false)

end Claude

namespace Git

/-- Embeds `sanitize_branch_name` from git_service.py: `re.sub(r"[/\\]", "-", branch)` then
`re.sub(r"[^a-zA-Z0-9_-]", "", safe)`. -/
def sanitize_branch_name (branch : String) : String :=
  let dashed := branch.toList.map (fun ch => if ch = '/' ∨ ch = '\\' then '-' else ch)
  let kept := dashed.filter (fun ch => ch.isAlphanum ∨ ch = '_' ∨ ch = '-')
  String.mk kept

/-- Embeds `get_worktree_path`: falsy branch (None or empty) ⇒ default work dir; otherwise
`<worktrees-root>/<sanitized>` when that directory exists on disk, else the default
work dir.  `workDir`/`worktreesDir` come from the environment and `fs` is the
filesystem-existence oracle (`Path.exists`). -/
def get_worktree_path (workDir worktreesDir : String) (fs : String → Bool)
    (branch : Option String) : String :=
  match branch with
  | none => workDir
  | some b =>
      if b = "" then workDir
      else
        let p := worktreesDir ++ "/" ++ sanitize_branch_name b
        if fs p then p else workDir

/-- The sanitize step exactly as claim C7's words describe it: replace slashes with
dashes and strip every other non-alphanumeric character (so underscores, unlike in the
source, are stripped).  Used only to compare the claim against the code. -/
def claimedSanitize (branch : String) : String :=
  let dashed := branch.toList.map (fun ch => if ch = '/' ∨ ch = '\\' then '-' else ch)
  String.mk (dashed.filter (fun ch => ch.isAlphanum ∨ ch = '-'))

/-- Claim C7's description of ResolvePath, using `claimedSanitize`. -/
def claimedResolvePath (workDir worktreesDir : String) (fs : String → Bool)
    (branch : Option String) : String :=
  match branch with
  | none => workDir
  | some b =>
      let p := worktreesDir ++ "/" ++ claimedSanitize b
      if fs p then p else workDir

/-- The amended claim C7, written from its words: empty or missing branch ⇒ default
working directory; otherwise the token replaces slashes and backslashes with dashes
and drops every character that is not alphanumeric, an underscore or a dash; the
result is `<worktrees-root>/<token>` when that directory exists, else the default. -/
def amendedResolvePath (workDir worktreesDir : String) (fs : String → Bool)
    (branch : Option String) : String :=
  match branch with
  | none => workDir
  | some b =>
      if b = "" then workDir
      else
        let token := String.mk
          ((b.toList.map (fun ch => if ch = '/' ∨ ch = '\\' then '-' else ch)).filter
            (fun ch => ch.isAlphanum ∨ ch = '_' ∨ ch = '-'))
        let p := worktreesDir ++ "/" ++ token
        if fs p then p else workDir

/-- Result dict of `create_worktree` (absent dict keys are `false`/`none`). -/
structure WtResult where
  success : Bool
  path : Option String
  branch : Option String
  created : Bool
  existed : Bool
  error : Option String
deriving DecidableEq

/-- Outcome of the `git worktree add` invocation in `create_worktree`: exit 0,
non-zero exit with stderr, or an exception (e.g. git missing).  On exit 0 the
worktree directory exists afterwards (that is what `git worktree add <path>` does). -/
inductive GitAdd where
  | success
  | nonzero (stderr : String)
  | raised (msg : String)

/-- Embeds `create_worktree`: mkdir the worktrees root, then: if the sanitized path already
exists return it with `existed`; otherwise ask git whether the branch exists
(1 subprocess), run the matching `git worktree add` variant (1 subprocess), and
return `created` on success or the stderr on failure.  Returns the updated
filesystem, the result, and the number of git subprocesses invoked. -/
def create_worktree (worktreesDir : String) (fs : String → Bool)
    (branchExists : Bool) (o : GitAdd) (branch : String) :
    (String → Bool) × WtResult × Nat :=
  let fs1 := updS fs worktreesDir true
  let path := worktreesDir ++ "/" ++ sanitize_branch_name branch
  if fs1 path then
    (fs1, ⟨true, some path, some branch, false, true, none⟩, 0)
  else
    -- `branchExists` only selects which `git worktree add` variant runs;
    -- both variants produce the directory at `path` on success.
    let _ := branchExists
    match o with
    | .success => (updS fs1 path true, ⟨true, some path, some branch, true, false, none⟩, 2)
    | .nonzero err =>
        let e := if err.trim = "" then "Failed to create worktree" else err.trim
        (fs1, ⟨false, none, none, false, false, some e⟩, 2)
    | .raised m => (fs1, ⟨false, none, none, false, false, some m⟩, 2)

end Git

namespace AIHist

/-- One role/content entry of a conversation history. -/
structure ChatMsg where
  role : String
  content : String
deriving DecidableEq

/-- History update performed by `LocalProvider.get_response` (ai/local.py): append
the user message and the assistant reply, then keep only the last 40 entries
(`self.history = self.history[-40:]` when `len > 40`).  `content` is the final
assistant text produced by the LLM oracle. -/
def local_get_response_history (h : List ChatMsg) (message content : String) :
    List ChatMsg :=
  let h2 := h ++ [⟨"user", message⟩, ⟨"assistant", content⟩]
  if h2.length > 40 then h2.drop (h2.length - 40) else h2

/-- Modelled from the spec: `GeminiProvider.get_response` (ai/gemini.py) delegates to
the external `google.generativeai` chat object, whose `send_message` appends the
user message and the model reply to its stored history; the provider code adds no
trimming.  The external library is not part of src/, so its documented append
behaviour is modelled here. -/
def gemini_send_message_history (h : List ChatMsg) (message reply : String) :
    List ChatMsg :=
  h ++ [⟨"user", message⟩, ⟨"model", reply⟩]

/-- History of a Gemini session after `n` exchanges. -/
def geminiIter : Nat → List ChatMsg
  | 0 => []
  | n + 1 => gemini_send_message_history (geminiIter n) "m" "r"

end AIHist

@[simp] theorem upd_self {α : Type} (f : Nat → α) (k : Nat) (v : α) : upd f k v k = v := by
  simp [upd]

theorem upd_ne {α : Type} (f : Nat → α) (k : Nat) (v : α) {i : Nat} (h : i ≠ k) :
    upd f k v i = f i := by
  simp [upd, h]

@[simp] theorem updS_self {α : Type} (f : String → α) (k : String) (v : α) :
    updS f k v k = v := by
  simp [updS]

theorem updS_ne {α : Type} (f : String → α) (k : String) (v : α) {i : String} (h : i ≠ k) :
    updS f k v i = f i := by
  simp [updS, h]

namespace TaskQueue

theorem inv_st0 : Inv st0 where
  hCmap := fun c r h => by simp [st0] at h
  hOrphan := fun r hr => absurd hr (by simp [st0])
  hQ := fun r hr => absurd hr (by simp [st0])
  hSorted := fun r hr => absurd hr (by simp [st0])
  hDisj := fun r r' hr => absurd hr (by simp [st0])
  hStale := fun r hr => absurd hr (by simp [st0])
  hLockBound := fun r hr => absurd hr (by simp [st0])
  hLockSame := fun r r' hr => absurd hr (by simp [st0])
  hLockInj := fun r r' hr => absurd hr (by simp [st0])
  hProc := fun p hp => absurd hp (by simp [st0])
  hOne := fun p q hp => absurd hp (by simp [st0])
  hFlag := fun p hp => absurd hp (by simp [st0])
  hRun := fun t ht => absurd ht (by simp [st0])
  hLockIff := fun c r h => by simp [st0] at h
  hQIn := fun t ht => absurd ht (by simp [st0])
  hOrder := fun i j hi => absurd hi (by simp [st0])

theorem cancel_task_pos (s : St) (tid : Nat) (h1 : tid < s.ntasks)
    (h2 : (s.tasks tid).status = .queued) :
    cancel_task s tid =
      ({ s with tasks := upd s.tasks tid ({ s.tasks tid with status := .cancelled, completedAt := some s.now }) }, true) := by
  simp [cancel_task, h1, h2]

theorem cancel_task_neg (s : St) (tid : Nat)
    (h : ¬(tid < s.ntasks ∧ (s.tasks tid).status = .queued)) :
    cancel_task s tid = (s, false) := by
  unfold cancel_task
  by_cases h1 : tid < s.ntasks
  · have h2 : ¬(s.tasks tid).status = .queued := fun hq => h ⟨h1, hq⟩
    simp [h1, h2]
  · simp [h1]

theorem inv_cancel_task (s : St) (tid : Nat) (hs : Inv s) : Inv (cancel_task s tid).1 := by
  by_cases hok : tid < s.ntasks ∧ (s.tasks tid).status = .queued
  · obtain ⟨hlt, hq⟩ := hok
    rw [cancel_task_pos s tid hlt hq]
    dsimp only
    exact {
      hCmap := hs.hCmap
      hOrphan := hs.hOrphan
      hSorted := hs.hSorted
      hDisj := hs.hDisj
      hLockBound := hs.hLockBound
      hLockSame := hs.hLockSame
      hLockInj := hs.hLockInj
      hOne := hs.hOne
      hFlag := hs.hFlag
      hLockIff := hs.hLockIff
      hQ := by
        dsimp only
        intro r hr t ht
        obtain ⟨h1, h2, h3⟩ := hs.hQ r hr t ht
        by_cases hti : t = tid
        · subst hti
          exact ⟨h1, by simpa [upd] using h2, Or.inr (by simp [upd])⟩
        · exact ⟨h1, by simpa [upd, hti] using h2, by simpa [upd, hti] using h3⟩
      hStale := by
        dsimp only
        intro r hr hne t ht
        have h3 := hs.hStale r hr hne t ht
        by_cases hti : t = tid
        · subst hti; simp [upd]
        · simpa [upd, hti] using h3
      hProc := by
        dsimp only
        intro p hp
        have h0 := hs.hProc p hp
        unfold ProcOK at h0 ⊢
        cases hst : (s.procs p).st with
        | handling r t =>
            rw [hst] at h0
            obtain ⟨h1, h2, h3, h4, h5⟩ := h0
            have hti : t ≠ tid := by
              intro he
              rw [he, hq] at h5
              exact absurd h5 (by decide)
            exact ⟨h1, h2, h3, by simpa [upd, hti] using h4, by simpa [upd, hti] using h5⟩
        | notStarted => exact trivial
        | waiting r => rw [hst] at h0; exact h0
        | acquiring r t => rw [hst] at h0; exact h0.elim
        | done => exact trivial
      hRun := by
        dsimp only
        intro t ht hrun
        by_cases hti : t = tid
        · subst hti
          simp [upd] at hrun
        · rw [upd_ne _ _ _ hti] at hrun
          exact hs.hRun t ht hrun
      hQIn := by
        dsimp only
        intro t ht hqd
        by_cases hti : t = tid
        · subst hti
          simp [upd] at hqd
        · rw [upd_ne _ _ _ hti] at hqd
          exact hs.hQIn t ht hqd
      hOrder := by
        dsimp only
        intro i j hi hj hij hc hst
        by_cases hjt : j = tid
        · subst hjt
          rw [upd_self] at hst
          exact absurd hst (by simp [startedS])
        · rw [upd_ne _ _ _ hjt] at hst hc
          by_cases hit : i = tid
          · subst hit
            simp [upd, terminalS]
          · rw [upd_ne _ _ _ hit] at hc ⊢
            exact hs.hOrder i j hi hj hij hc hst
    }
  · rw [cancel_task_neg s tid hok]
    exact hs

theorem upd_preserve {α β : Type} (f : Nat → α) (g : α → β) (k : Nat) (v : α)
    (hg : g v = g (f k)) (i : Nat) : g (upd f k v i) = g (f i) := by
  by_cases h : i = k
  · subst h; simpa [upd]
  · rw [upd_ne _ _ _ h]

theorem procTimeout_pos (s : St) (p r : Nat) (h1 : p < s.nprocs)
    (hw : (s.procs p).st = .waiting r) (hq : (s.heap r).queue = []) :
    procTimeoutStep s p =
      { s with
          heap := upd s.heap r ⟨(s.heap r).container, (s.heap r).queue, (s.heap r).lockRef, (s.heap r).runningTask, false⟩
          procs := upd s.procs p ⟨(s.procs p).c, .done⟩ } := by
  simp [procTimeoutStep, h1, hw, hq]

theorem inv_procTimeout (s : St) (p : Nat) (hs : Inv s) : Inv (procTimeoutStep s p) := by
  by_cases h1 : p < s.nprocs
  · cases hw : (s.procs p).st with
    | waiting r =>
        by_cases hq : (s.heap r).queue = []
        · have hpr := hs.hProc p h1
          unfold ProcOK at hpr
          rw [hw] at hpr
          obtain ⟨hrlt, hrc⟩ := hpr
          rw [procTimeout_pos s p r h1 hw hq]
          have hcont : ∀ r', ((upd s.heap r ⟨(s.heap r).container, (s.heap r).queue, (s.heap r).lockRef, (s.heap r).runningTask, false⟩) r').container = (s.heap r').container :=
            upd_preserve s.heap CQ.container r _ rfl
          have hqueue : ∀ r', ((upd s.heap r ⟨(s.heap r).container, (s.heap r).queue, (s.heap r).lockRef, (s.heap r).runningTask, false⟩) r').queue = (s.heap r').queue :=
            upd_preserve s.heap CQ.queue r _ rfl
          have hlockref : ∀ r', ((upd s.heap r ⟨(s.heap r).container, (s.heap r).queue, (s.heap r).lockRef, (s.heap r).runningTask, false⟩) r').lockRef = (s.heap r').lockRef :=
            upd_preserve s.heap CQ.lockRef r _ rfl
          exact {
            hCmap := by
              dsimp only
              intro c r' h
              obtain ⟨b1, b2⟩ := hs.hCmap c r' h
              rw [hcont r']
              exact ⟨b1, b2⟩
            hOrphan := by
              dsimp only
              intro r' hr'
              rw [hcont r']
              exact hs.hOrphan r' hr'
            hQ := by
              dsimp only
              intro r' hr' t ht
              rw [hqueue r'] at ht
              rw [hcont r']
              exact hs.hQ r' hr' t ht
            hSorted := by
              dsimp only
              intro r' hr'
              rw [hqueue r']
              exact hs.hSorted r' hr'
            hDisj := by
              dsimp only
              intro ra rb hra hrb t hta htb
              rw [hqueue ra] at hta
              rw [hqueue rb] at htb
              exact hs.hDisj ra rb hra hrb t hta htb
            hStale := by
              dsimp only
              intro r' hr' hne t ht
              rw [hcont r'] at hne
              rw [hqueue r'] at ht
              exact hs.hStale r' hr' hne t ht
            hLockBound := by
              dsimp only
              intro r' hr'
              rw [hlockref r']
              exact hs.hLockBound r' hr'
            hLockSame := by
              dsimp only
              intro ra rb hra hrb hcc
              rw [hcont ra, hcont rb] at hcc
              rw [hlockref ra, hlockref rb]
              exact hs.hLockSame ra rb hra hrb hcc
            hLockInj := by
              dsimp only
              intro ra rb hra hrb hll
              rw [hlockref ra, hlockref rb] at hll
              rw [hcont ra, hcont rb]
              exact hs.hLockInj ra rb hra hrb hll
            hProc := by
              dsimp only
              intro p' hp'
              by_cases hpp : p' = p
              · subst hpp
                rw [upd_self]
                exact trivial
              · rw [upd_ne _ _ _ hpp]
                have h0 := hs.hProc p' hp'
                unfold ProcOK at h0 ⊢
                cases hst' : (s.procs p').st with
                | notStarted => exact trivial
                | done => exact trivial
                | waiting r'' =>
                    rw [hst'] at h0
                    dsimp only
                    rw [hcont r'']
                    exact h0
                | acquiring r'' t'' => rw [hst'] at h0; exact h0.elim
                | handling r'' t'' =>
                    rw [hst'] at h0
                    dsimp only
                    rw [hcont r'']
                    exact h0
            hOne := by
              dsimp only
              intro pa pb hpa hpb hne hsa hsb
              by_cases hap : pa = p
              · subst hap
                rw [upd_self] at hsa
                exact absurd hsa (by simp [PState.isStarted])
              · by_cases hbp : pb = p
                · subst hbp
                  rw [upd_self] at hsb
                  exact absurd hsb (by simp [PState.isStarted])
                · rw [upd_ne _ _ _ hap] at hsa ⊢
                  rw [upd_ne _ _ _ hbp] at hsb ⊢
                  exact hs.hOne pa pb hpa hpb hne hsa hsb
            hFlag := by
              dsimp only
              intro p' hp' hstart
              by_cases hpp : p' = p
              · subst hpp
                rw [upd_self] at hstart
                exact absurd hstart (by simp [PState.isStarted])
              · rw [upd_ne _ _ _ hpp] at hstart ⊢
                obtain ⟨rc, e1, e2⟩ := hs.hFlag p' hp' hstart
                refine ⟨rc, e1, ?_⟩
                by_cases hrr : rc = r
                · subst hrr
                  obtain ⟨c1, c2⟩ := hs.hCmap _ rc e1
                  exact absurd (c2.symm.trans hrc)
                    (hs.hOne p' p hp' h1 hpp hstart (by rw [hw]; rfl))
                · rw [upd_ne _ _ _ hrr]
                  exact e2
            hRun := by
              dsimp only
              intro t ht hrun
              obtain ⟨p'', hp'', r'', hh⟩ := hs.hRun t ht hrun
              have hne : p'' ≠ p := by
                intro he
                subst he
                rw [hw] at hh
                cases hh
              exact ⟨p'', hp'', r'', by rw [upd_ne _ _ _ hne]; exact hh⟩
            hLockIff := by
              dsimp only
              intro c r' hcm
              have h0 := hs.hLockIff c r' hcm
              rw [hlockref r']
              constructor
              · intro hl
                obtain ⟨p'', hp'', hc', hh⟩ := h0.1 hl
                have hne : p'' ≠ p := by
                  intro he
                  subst he
                  rw [hw] at hh
                  exact absurd hh (by simp [PState.isHandling])
                exact ⟨p'', hp'', by rw [upd_ne _ _ _ hne]; exact hc',
                  by rw [upd_ne _ _ _ hne]; exact hh⟩
              · intro hex
                obtain ⟨p'', hp'', hc', hh⟩ := hex
                by_cases hpp : p'' = p
                · subst hpp
                  rw [upd_self] at hh
                  exact absurd hh (by simp [PState.isHandling])
                · rw [upd_ne _ _ _ hpp] at hc' hh
                  exact h0.2 ⟨p'', hp'', hc', hh⟩
            hQIn := by
              dsimp only
              intro t ht hqd
              obtain ⟨r', b1, b2⟩ := hs.hQIn t ht hqd
              exact ⟨r', b1, by rw [hqueue r']; exact b2⟩
            hOrder := hs.hOrder
          }
        · unfold procTimeoutStep
          rw [if_pos h1, hw]
          dsimp only
          rw [if_neg hq]
          exact hs
    | notStarted => unfold procTimeoutStep; rw [if_pos h1, hw]; exact hs
    | acquiring r t => unfold procTimeoutStep; rw [if_pos h1, hw]; exact hs
    | handling r t => unfold procTimeoutStep; rw [if_pos h1, hw]; exact hs
    | done => unfold procTimeoutStep; rw [if_pos h1, hw]; exact hs
  · unfold procTimeoutStep
    rw [if_neg h1]
    exact hs

theorem inv_procAcquire (s : St) (p : Nat) (hs : Inv s) : Inv (procAcquireStep s p) := by
  by_cases h1 : p < s.nprocs
  · cases hst : (s.procs p).st with
    | acquiring r t =>
        have h0 := hs.hProc p h1
        unfold ProcOK at h0
        rw [hst] at h0
        exact h0.elim
    | notStarted => unfold procAcquireStep; rw [if_pos h1, hst]; exact hs
    | waiting r => unfold procAcquireStep; rw [if_pos h1, hst]; exact hs
    | handling r t => unfold procAcquireStep; rw [if_pos h1, hst]; exact hs
    | done => unfold procAcquireStep; rw [if_pos h1, hst]; exact hs
  · unfold procAcquireStep
    rw [if_neg h1]
    exact hs

theorem procFinish_pos (s : St) (p r t : Nat) (ok : Bool) (err : String)
    (h1 : p < s.nprocs) (hst : (s.procs p).st = .handling r t) :
    procFinishStep s p ok err =
      { s with
          tasks := upd s.tasks t ⟨(s.tasks t).container, (s.tasks t).taskType, if ok then .completed else .failed, (s.tasks t).startedAt, some s.now, (s.tasks t).result, if ok then (s.tasks t).error else some err⟩
          heap := upd s.heap r ⟨(s.heap r).container, (s.heap r).queue, (s.heap r).lockRef, none, (s.heap r).processorRunning⟩
          locks := upd s.locks ((s.heap r).lockRef) false
          procs := upd s.procs p ⟨(s.procs p).c, .waiting r⟩ } := by
  simp [procFinishStep, h1, hst]

theorem inv_procFinish (s : St) (p : Nat) (ok : Bool) (err : String) (hs : Inv s) :
    Inv (procFinishStep s p ok err) := by
  by_cases h1 : p < s.nprocs
  · cases hst : (s.procs p).st with
    | notStarted => unfold procFinishStep; rw [if_pos h1, hst]; exact hs
    | waiting r => unfold procFinishStep; rw [if_pos h1, hst]; exact hs
    | acquiring r t =>
        have h0 := hs.hProc p h1
        unfold ProcOK at h0
        rw [hst] at h0
        exact h0.elim
    | done => unfold procFinishStep; rw [if_pos h1, hst]; exact hs
    | handling r t =>
        have hpr := hs.hProc p h1
        unfold ProcOK at hpr
        rw [hst] at hpr
        obtain ⟨hrlt, hrc, htlt, htc, htr⟩ := hpr
        rw [procFinish_pos s p r t ok err h1 hst]
        have hcont : ∀ r', ((upd s.heap r ⟨(s.heap r).container, (s.heap r).queue, (s.heap r).lockRef, none, (s.heap r).processorRunning⟩) r').container = (s.heap r').container :=
          upd_preserve s.heap CQ.container r _ rfl
        have hqueue : ∀ r', ((upd s.heap r ⟨(s.heap r).container, (s.heap r).queue, (s.heap r).lockRef, none, (s.heap r).processorRunning⟩) r').queue = (s.heap r').queue :=
          upd_preserve s.heap CQ.queue r _ rfl
        have hlockref : ∀ r', ((upd s.heap r ⟨(s.heap r).container, (s.heap r).queue, (s.heap r).lockRef, none, (s.heap r).processorRunning⟩) r').lockRef = (s.heap r').lockRef :=
          upd_preserve s.heap CQ.lockRef r _ rfl
        have hflag : ∀ r', ((upd s.heap r ⟨(s.heap r).container, (s.heap r).queue, (s.heap r).lockRef, none, (s.heap r).processorRunning⟩) r').processorRunning = (s.heap r').processorRunning :=
          upd_preserve s.heap CQ.processorRunning r _ rfl
        have htcont : ∀ u, ((upd s.tasks t ⟨(s.tasks t).container, (s.tasks t).taskType, if ok then .completed else .failed, (s.tasks t).startedAt, some s.now, (s.tasks t).result, if ok then (s.tasks t).error else some err⟩) u).container = (s.tasks u).container :=
          upd_preserve s.tasks QTask.container t _ rfl
        have hnotq : ∀ r' u, r' < s.nheap → u ∈ (s.heap r').queue → u ≠ t := by
          intro r' u hr' hu he
          subst he
          obtain ⟨-, -, b3⟩ := hs.hQ r' hr' u hu
          rw [htr] at b3
          rcases b3 with b3 | b3 <;> exact absurd b3 (by decide)
        exact {
          hCmap := by
            dsimp only
            intro c r' h
            obtain ⟨b1, b2⟩ := hs.hCmap c r' h
            rw [hcont r']
            exact ⟨b1, b2⟩
          hOrphan := by
            dsimp only
            intro r' hr'
            rw [hcont r']
            exact hs.hOrphan r' hr'
          hQ := by
            dsimp only
            intro r' hr' u hu
            rw [hqueue r'] at hu
            have hut : u ≠ t := hnotq r' u hr' hu
            obtain ⟨b1, b2, b3⟩ := hs.hQ r' hr' u hu
            rw [hcont r', upd_ne _ _ _ hut]
            exact ⟨b1, b2, b3⟩
          hSorted := by
            dsimp only
            intro r' hr'
            rw [hqueue r']
            exact hs.hSorted r' hr'
          hDisj := by
            dsimp only
            intro ra rb hra hrb u hua hub
            rw [hqueue ra] at hua
            rw [hqueue rb] at hub
            exact hs.hDisj ra rb hra hrb u hua hub
          hStale := by
            dsimp only
            intro r' hr' hne u hu
            rw [hcont r'] at hne
            rw [hqueue r'] at hu
            rw [upd_ne _ _ _ (hnotq r' u hr' hu)]
            exact hs.hStale r' hr' hne u hu
          hLockBound := by
            dsimp only
            intro r' hr'
            rw [hlockref r']
            exact hs.hLockBound r' hr'
          hLockSame := by
            dsimp only
            intro ra rb hra hrb hcc
            rw [hcont ra, hcont rb] at hcc
            rw [hlockref ra, hlockref rb]
            exact hs.hLockSame ra rb hra hrb hcc
          hLockInj := by
            dsimp only
            intro ra rb hra hrb hll
            rw [hlockref ra, hlockref rb] at hll
            rw [hcont ra, hcont rb]
            exact hs.hLockInj ra rb hra hrb hll
          hProc := by
            dsimp only
            intro p' hp'
            by_cases hpp : p' = p
            · subst hpp
              rw [upd_self]
              unfold ProcOK
              dsimp only
              rw [hcont r]
              exact ⟨hrlt, hrc⟩
            · rw [upd_ne _ _ _ hpp]
              have h0 := hs.hProc p' hp'
              unfold ProcOK at h0 ⊢
              cases hst' : (s.procs p').st with
              | notStarted => exact trivial
              | done => exact trivial
              | waiting r'' =>
                  rw [hst'] at h0
                  dsimp only
                  rw [hcont r'']
                  exact h0
              | acquiring r'' t'' => rw [hst'] at h0; exact h0.elim
              | handling r'' t'' =>
                  rw [hst'] at h0
                  obtain ⟨b1, b2, b3, b4, b5⟩ := h0
                  have htt : t'' ≠ t := by
                    intro he
                    subst he
                    have hcne := hs.hOne p' p hp' h1 hpp (by rw [hst']; rfl) (by rw [hst]; rfl)
                    rw [← b4, ← htc] at hcne
                    exact hcne rfl
                  dsimp only
                  rw [hcont r'', upd_ne _ _ _ htt]
                  exact ⟨b1, b2, b3, b4, b5⟩
          hOne := by
            dsimp only
            intro pa pb hpa hpb hne hsa hsb
            have ea : ∀ q, q < s.nprocs → ((upd s.procs p ⟨(s.procs p).c, .waiting r⟩ q).st.isStarted = true) → (upd s.procs p ⟨(s.procs p).c, .waiting r⟩ q).c = (s.procs q).c ∧ (s.procs q).st.isStarted = true := by
              intro q hq hsq
              by_cases hqp : q = p
              · subst hqp
                rw [upd_self]
                exact ⟨rfl, by rw [hst]; rfl⟩
              · rw [upd_ne _ _ _ hqp] at hsq ⊢
                exact ⟨rfl, hsq⟩
            obtain ⟨ca, sa⟩ := ea pa hpa hsa
            obtain ⟨cb, sb⟩ := ea pb hpb hsb
            rw [ca, cb]
            exact hs.hOne pa pb hpa hpb hne sa sb
          hFlag := by
            dsimp only
            intro p' hp' hstart
            by_cases hpp : p' = p
            · subst hpp
              obtain ⟨rc, e1, e2⟩ := hs.hFlag p' hp' (by rw [hst]; rfl)
              rw [upd_self]
              exact ⟨rc, e1, by rw [hflag rc]; exact e2⟩
            · rw [upd_ne _ _ _ hpp] at hstart ⊢
              obtain ⟨rc, e1, e2⟩ := hs.hFlag p' hp' hstart
              exact ⟨rc, e1, by rw [hflag rc]; exact e2⟩
          hRun := by
            dsimp only
            intro u hu hrun
            by_cases hut : u = t
            · subst hut
              rw [upd_self] at hrun
              dsimp only at hrun
              cases ok <;> simp at hrun
            · rw [upd_ne _ _ _ hut] at hrun
              obtain ⟨p'', hp'', r'', hh⟩ := hs.hRun u hu hrun
              have hne : p'' ≠ p := by
                intro he
                subst he
                rw [hst] at hh
                injection hh with e1 e2
                exact hut e2.symm
              exact ⟨p'', hp'', r'', by rw [upd_ne _ _ _ hne]; exact hh⟩
          hLockIff := by
            dsimp only
            intro c r' hcm
            have h0 := hs.hLockIff c r' hcm
            obtain ⟨d1, d2⟩ := hs.hCmap c r' hcm
            rw [hlockref r']
            by_cases hll : (s.heap r').lockRef = (s.heap r).lockRef
            · have hcc : c = (s.procs p).c := by
                rw [← d2, ← hrc]
                exact hs.hLockInj r' r d1 hrlt hll
              rw [hll, upd_self]
              constructor
              · intro hft
                exact absurd hft (by simp)
              · intro hex
                obtain ⟨q, hq, hqc, hqh⟩ := hex
                by_cases hqp : q = p
                · subst hqp
                  rw [upd_self] at hqh
                  exact absurd hqh (by simp [PState.isHandling])
                · rw [upd_ne _ _ _ hqp] at hqc hqh
                  have := hs.hOne q p hq h1 hqp
                    (by cases hq' : (s.procs q).st <;> simp [PState.isHandling, hq'] at hqh ⊢ <;> simp [PState.isStarted])
                    (by rw [hst]; rfl)
                  rw [hqc] at this
                  exact absurd hcc this
            · rw [upd_ne _ _ _ hll]
              constructor
              · intro hl
                obtain ⟨q, hq, hqc, hqh⟩ := h0.1 hl
                have hqp : q ≠ p := by
                  intro he
                  apply hll
                  have hcq : c = (s.procs p).c := by rw [← hqc, he]
                  exact hs.hLockSame r' r d1 hrlt (by rw [d2, hcq, hrc])
                exact ⟨q, hq, by rw [upd_ne _ _ _ hqp]; exact hqc,
                  by rw [upd_ne _ _ _ hqp]; exact hqh⟩
              · intro hex
                obtain ⟨q, hq, hqc, hqh⟩ := hex
                by_cases hqp : q = p
                · subst hqp
                  rw [upd_self] at hqh
                  exact absurd hqh (by simp [PState.isHandling])
                · rw [upd_ne _ _ _ hqp] at hqc hqh
                  exact h0.2 ⟨q, hq, hqc, hqh⟩
          hQIn := by
            dsimp only
            intro u hu hqd
            by_cases hut : u = t
            · subst hut
              rw [upd_self] at hqd
              dsimp only at hqd
              cases ok <;> simp at hqd
            · rw [upd_ne _ _ _ hut] at hqd
              obtain ⟨r', b1, b2⟩ := hs.hQIn u hu hqd
              exact ⟨r', b1, by rw [hqueue r']; exact b2⟩
          hOrder := by
            dsimp only
            intro i j hi hj hij hc hstj
            by_cases hit : i = t
            · subst hit
              rw [upd_self]
              cases ok <;> simp [terminalS]
            · rw [upd_ne _ _ _ hit] at hc ⊢
              by_cases hjt : j = t
              · subst hjt
                rw [htcont j] at hc
                exact hs.hOrder i j hi hj hij hc (by rw [htr]; exact Or.inl rfl)
              · rw [upd_ne _ _ _ hjt] at hc hstj
                exact hs.hOrder i j hi hj hij hc hstj
        }
  · unfold procFinishStep
    rw [if_neg h1]
    exact hs

theorem gcq_some (s : St) (c : String) (r : Nat) (h : s.cmap c = some r) :
    _get_container_queue s c = (s, r) := by
  simp [_get_container_queue, h]

theorem gcq_none (s : St) (c : String) (h : s.cmap c = none) :
    _get_container_queue s c =
      ({ s with
          nheap := s.nheap + 1
          heap := upd s.heap s.nheap ⟨c, [], s.nlocks, none, false⟩
          nlocks := s.nlocks + 1
          locks := upd s.locks s.nlocks false
          cmap := updS s.cmap c (some s.nheap) }, s.nheap) := by
  simp [_get_container_queue, h]

theorem gcq_cmap (s : St) (c : String) :
    (_get_container_queue s c).1.cmap c = some (_get_container_queue s c).2 := by
  cases h : s.cmap c with
  | some r => rw [gcq_some s c r h]; exact h
  | none => rw [gcq_none s c h]; exact updS_self _ _ _

theorem inv_gcq (s : St) (c : String) (hs : Inv s) : Inv (_get_container_queue s c).1 := by
  cases h : s.cmap c with
  | some r => rw [gcq_some s c r h]; exact hs
  | none =>
      rw [gcq_none s c h]
      have hcont : ∀ r', r' < s.nheap → ((upd s.heap s.nheap (⟨c, [], s.nlocks, none, false⟩ : CQ)) r').container = (s.heap r').container := by
        intro r' hr'
        rw [upd_ne _ _ _ (Nat.ne_of_lt hr')]
      have hqueue : ∀ r', r' < s.nheap → ((upd s.heap s.nheap (⟨c, [], s.nlocks, none, false⟩ : CQ)) r').queue = (s.heap r').queue := by
        intro r' hr'
        rw [upd_ne _ _ _ (Nat.ne_of_lt hr')]
      have hlockref : ∀ r', r' < s.nheap → ((upd s.heap s.nheap (⟨c, [], s.nlocks, none, false⟩ : CQ)) r').lockRef = (s.heap r').lockRef := by
        intro r' hr'
        rw [upd_ne _ _ _ (Nat.ne_of_lt hr')]
      have hflag : ∀ r', r' < s.nheap → ((upd s.heap s.nheap (⟨c, [], s.nlocks, none, false⟩ : CQ)) r').processorRunning = (s.heap r').processorRunning := by
        intro r' hr'
        rw [upd_ne _ _ _ (Nat.ne_of_lt hr')]
      have hnoc : ∀ r', r' < s.nheap → (s.heap r').container ≠ c := by
        intro r' hr' he
        have := hs.hOrphan r' hr'
        rw [he, h] at this
        simp at this
      exact {
        hCmap := by
          dsimp only
          intro c' r' hcm
          by_cases hcc : c' = c
          · subst hcc
            rw [updS_self] at hcm
            injection hcm with he
            subst he
            exact ⟨Nat.lt_succ_self _, by rw [upd_self]⟩
          · rw [updS_ne _ _ _ hcc] at hcm
            obtain ⟨b1, b2⟩ := hs.hCmap c' r' hcm
            exact ⟨Nat.lt_succ_of_lt b1, by rw [hcont r' b1]; exact b2⟩
        hOrphan := by
          dsimp only
          intro r' hr'
          rcases Nat.lt_succ_iff_lt_or_eq.mp hr' with hlt | he
          · rw [hcont r' hlt]
            rw [updS_ne _ _ _ (hnoc r' hlt)]
            exact hs.hOrphan r' hlt
          · subst he
            rw [upd_self]
            rw [updS_self]
            simp
        hQ := by
          dsimp only
          intro r' hr' u hu
          rcases Nat.lt_succ_iff_lt_or_eq.mp hr' with hlt | he
          · rw [hqueue r' hlt] at hu
            obtain ⟨b1, b2, b3⟩ := hs.hQ r' hlt u hu
            rw [hcont r' hlt]
            exact ⟨b1, b2, b3⟩
          · subst he
            rw [upd_self] at hu
            simp at hu
        hSorted := by
          dsimp only
          intro r' hr'
          rcases Nat.lt_succ_iff_lt_or_eq.mp hr' with hlt | he
          · rw [hqueue r' hlt]
            exact hs.hSorted r' hlt
          · subst he
            rw [upd_self]
            exact List.Pairwise.nil
        hDisj := by
          dsimp only
          intro ra rb hra hrb u hua hub
          rcases Nat.lt_succ_iff_lt_or_eq.mp hra with hla | hea
          · rcases Nat.lt_succ_iff_lt_or_eq.mp hrb with hlb | heb
            · rw [hqueue ra hla] at hua
              rw [hqueue rb hlb] at hub
              exact hs.hDisj ra rb hla hlb u hua hub
            · subst heb
              rw [upd_self] at hub
              simp at hub
          · subst hea
            rw [upd_self] at hua
            simp at hua
        hStale := by
          dsimp only
          intro r' hr' hne u hu
          rcases Nat.lt_succ_iff_lt_or_eq.mp hr' with hlt | he
          · rw [hqueue r' hlt] at hu
            rw [hcont r' hlt] at hne
            rw [updS_ne _ _ _ (hnoc r' hlt)] at hne
            exact hs.hStale r' hlt hne u hu
          · subst he
            rw [upd_self] at hu
            simp at hu
        hLockBound := by
          dsimp only
          intro r' hr'
          rcases Nat.lt_succ_iff_lt_or_eq.mp hr' with hlt | he
          · rw [hlockref r' hlt]
            exact Nat.lt_succ_of_lt (hs.hLockBound r' hlt)
          · subst he
            rw [upd_self]
            exact Nat.lt_succ_self _
        hLockSame := by
          dsimp only
          intro ra rb hra hrb hcc
          rcases Nat.lt_succ_iff_lt_or_eq.mp hra with hla | hea
          · rcases Nat.lt_succ_iff_lt_or_eq.mp hrb with hlb | heb
            · rw [hcont ra hla, hcont rb hlb] at hcc
              rw [hlockref ra hla, hlockref rb hlb]
              exact hs.hLockSame ra rb hla hlb hcc
            · subst heb
              rw [hcont ra hla, upd_self] at hcc
              exact absurd hcc (hnoc ra hla)
          · subst hea
            rcases Nat.lt_succ_iff_lt_or_eq.mp hrb with hlb | heb
            · rw [upd_self, hcont rb hlb] at hcc
              exact absurd hcc.symm (hnoc rb hlb)
            · subst heb
              rfl
        hLockInj := by
          dsimp only
          intro ra rb hra hrb hll
          rcases Nat.lt_succ_iff_lt_or_eq.mp hra with hla | hea
          · rcases Nat.lt_succ_iff_lt_or_eq.mp hrb with hlb | heb
            · rw [hlockref ra hla, hlockref rb hlb] at hll
              rw [hcont ra hla, hcont rb hlb]
              exact hs.hLockInj ra rb hla hlb hll
            · subst heb
              rw [hlockref ra hla, upd_self] at hll
              exact absurd hll (Nat.ne_of_lt (hs.hLockBound ra hla))
          · subst hea
            rcases Nat.lt_succ_iff_lt_or_eq.mp hrb with hlb | heb
            · rw [upd_self, hlockref rb hlb] at hll
              exact absurd hll.symm (Nat.ne_of_lt (hs.hLockBound rb hlb))
            · subst heb
              rfl
        hProc := by
          dsimp only
          intro p' hp'
          have h0 := hs.hProc p' hp'
          unfold ProcOK at h0 ⊢
          cases hst' : (s.procs p').st with
          | notStarted => exact trivial
          | done => exact trivial
          | waiting r'' =>
              rw [hst'] at h0
              obtain ⟨b1, b2⟩ := h0
              dsimp only
              rw [hcont r'' b1]
              exact ⟨Nat.lt_succ_of_lt b1, b2⟩
          | acquiring r'' t'' => rw [hst'] at h0; exact h0.elim
          | handling r'' t'' =>
              rw [hst'] at h0
              obtain ⟨b1, b2, b3, b4, b5⟩ := h0
              dsimp only
              rw [hcont r'' b1]
              exact ⟨Nat.lt_succ_of_lt b1, b2, b3, b4, b5⟩
        hOne := hs.hOne
        hFlag := by
          dsimp only
          intro p' hp' hstart
          obtain ⟨rc, e1, e2⟩ := hs.hFlag p' hp' hstart
          obtain ⟨d1, d2⟩ := hs.hCmap _ rc e1
          have hcc : (s.procs p').c ≠ c := by
            intro he
            rw [he, h] at e1
            cases e1
          refine ⟨rc, by rw [updS_ne _ _ _ hcc]; exact e1, ?_⟩
          rw [hflag rc d1]
          exact e2
        hRun := hs.hRun
        hLockIff := by
          dsimp only
          intro c' r' hcm
          by_cases hcc : c' = c
          · subst hcc
            rw [updS_self] at hcm
            injection hcm with he
            subst he
            rw [upd_self]
            dsimp only
            rw [upd_self]
            constructor
            · intro hft
              exact absurd hft (by simp)
            · intro hex
              obtain ⟨q, hq, hqc, hqh⟩ := hex
              obtain ⟨rq, e1, e2⟩ := hs.hFlag q hq
                (by cases hq' : (s.procs q).st <;> simp [PState.isHandling, hq'] at hqh ⊢ <;> simp [PState.isStarted])
              rw [hqc, h] at e1
              cases e1
          · rw [updS_ne _ _ _ hcc] at hcm
            obtain ⟨d1, d2⟩ := hs.hCmap c' r' hcm
            rw [hlockref r' d1]
            rw [upd_ne _ _ _ (Nat.ne_of_lt (hs.hLockBound r' d1))]
            exact hs.hLockIff c' r' hcm
        hQIn := by
          dsimp only
          intro u hu hqd
          obtain ⟨r', b1, b2⟩ := hs.hQIn u hu hqd
          exact ⟨r', Nat.lt_succ_of_lt b1, by rw [hqueue r' b1]; exact b2⟩
        hOrder := hs.hOrder
      }

theorem inv_addProc (s : St) (c : String) (hs : Inv s) :
    Inv { s with nprocs := s.nprocs + 1, procs := upd s.procs s.nprocs ⟨c, .notStarted⟩ } := by
  have hmassage : ∀ q, q < s.nprocs + 1 →
      ((upd s.procs s.nprocs (⟨c, .notStarted⟩ : Proc)) q).st.isStarted = true →
      q < s.nprocs ∧ (upd s.procs s.nprocs (⟨c, .notStarted⟩ : Proc)) q = s.procs q := by
    intro q hq hsq
    by_cases hqn : q = s.nprocs
    · subst hqn
      rw [upd_self] at hsq
      exact absurd hsq (by simp [PState.isStarted])
    · have : q < s.nprocs := by
        rcases Nat.lt_succ_iff_lt_or_eq.mp hq with h | h
        · exact h
        · exact absurd h hqn
      exact ⟨this, upd_ne _ _ _ hqn⟩
  exact {
    hCmap := hs.hCmap
    hOrphan := hs.hOrphan
    hQ := hs.hQ
    hSorted := hs.hSorted
    hDisj := hs.hDisj
    hStale := hs.hStale
    hLockBound := hs.hLockBound
    hLockSame := hs.hLockSame
    hLockInj := hs.hLockInj
    hProc := by
      dsimp only
      intro p' hp'
      by_cases hqn : p' = s.nprocs
      · subst hqn
        rw [upd_self]
        exact trivial
      · rw [upd_ne _ _ _ hqn]
        have : p' < s.nprocs := by
          rcases Nat.lt_succ_iff_lt_or_eq.mp hp' with h | h
          · exact h
          · exact absurd h hqn
        exact hs.hProc p' this
    hOne := by
      dsimp only
      intro pa pb hpa hpb hne hsa hsb
      obtain ⟨la, ea⟩ := hmassage pa hpa hsa
      obtain ⟨lb, eb⟩ := hmassage pb hpb hsb
      rw [ea] at hsa ⊢
      rw [eb] at hsb ⊢
      exact hs.hOne pa pb la lb hne hsa hsb
    hFlag := by
      dsimp only
      intro p' hp' hstart
      obtain ⟨lp, ep⟩ := hmassage p' hp' hstart
      rw [ep] at hstart ⊢
      exact hs.hFlag p' lp hstart
    hRun := by
      dsimp only
      intro u hu hrun
      obtain ⟨q, hq, r'', hh⟩ := hs.hRun u hu hrun
      refine ⟨q, Nat.lt_succ_of_lt hq, r'', ?_⟩
      rw [upd_ne _ _ _ (Nat.ne_of_lt hq)]
      exact hh
    hLockIff := by
      dsimp only
      intro c' r' hcm
      have h0 := hs.hLockIff c' r' hcm
      constructor
      · intro hl
        obtain ⟨q, hq, hqc, hqh⟩ := h0.1 hl
        refine ⟨q, Nat.lt_succ_of_lt hq, ?_, ?_⟩ <;>
          rw [upd_ne _ _ _ (Nat.ne_of_lt hq)]
        · exact hqc
        · exact hqh
      · intro hex
        obtain ⟨q, hq, hqc, hqh⟩ := hex
        by_cases hqn : q = s.nprocs
        · subst hqn
          rw [upd_self] at hqh
          exact absurd hqh (by simp [PState.isHandling])
        · have hlt : q < s.nprocs := by
            rcases Nat.lt_succ_iff_lt_or_eq.mp hq with hh | hh
            · exact hh
            · exact absurd hh hqn
          rw [upd_ne _ _ _ hqn] at hqc hqh
          exact h0.2 ⟨q, hlt, hqc, hqh⟩
    hQIn := hs.hQIn
    hOrder := hs.hOrder
  }

theorem inv_start_processor (s : St) (c : String) (hs : Inv s) : Inv (start_processor s c) := by
  unfold start_processor
  dsimp only
  split
  · exact inv_gcq s c hs
  · exact inv_addProc _ c (inv_gcq s c hs)

theorem inv_setProcDone (σ : St) (p : Nat) (c' : String) (hs : Inv σ) (h1 : p < σ.nprocs)
    (hst : (σ.procs p).st = .notStarted) :
    Inv { σ with procs := upd σ.procs p ⟨c', .done⟩ } := by
  have hmassage : ∀ q, ((upd σ.procs p (⟨c', .done⟩ : Proc)) q).st.isStarted = true →
      (upd σ.procs p (⟨c', .done⟩ : Proc)) q = σ.procs q := by
    intro q hsq
    by_cases hqp : q = p
    · subst hqp
      rw [upd_self] at hsq
      exact absurd hsq (by simp [PState.isStarted])
    · exact upd_ne _ _ _ hqp
  exact {
    hCmap := hs.hCmap
    hOrphan := hs.hOrphan
    hQ := hs.hQ
    hSorted := hs.hSorted
    hDisj := hs.hDisj
    hStale := hs.hStale
    hLockBound := hs.hLockBound
    hLockSame := hs.hLockSame
    hLockInj := hs.hLockInj
    hProc := by
      dsimp only
      intro p' hp'
      by_cases hqp : p' = p
      · subst hqp
        rw [upd_self]
        exact trivial
      · rw [upd_ne _ _ _ hqp]
        exact hs.hProc p' hp'
    hOne := by
      dsimp only
      intro pa pb hpa hpb hne hsa hsb
      have ea := hmassage pa hsa
      have eb := hmassage pb hsb
      rw [ea] at hsa ⊢
      rw [eb] at hsb ⊢
      exact hs.hOne pa pb hpa hpb hne hsa hsb
    hFlag := by
      dsimp only
      intro p' hp' hstart
      have ep := hmassage p' hstart
      rw [ep] at hstart ⊢
      exact hs.hFlag p' hp' hstart
    hRun := by
      dsimp only
      intro u hu hrun
      obtain ⟨q, hq, r'', hh⟩ := hs.hRun u hu hrun
      have hqp : q ≠ p := by
        intro he
        subst he
        rw [hst] at hh
        cases hh
      exact ⟨q, hq, r'', by rw [upd_ne _ _ _ hqp]; exact hh⟩
    hLockIff := by
      dsimp only
      intro c'' r' hcm
      have h0 := hs.hLockIff c'' r' hcm
      constructor
      · intro hl
        obtain ⟨q, hq, hqc, hqh⟩ := h0.1 hl
        have hqp : q ≠ p := by
          intro he
          subst he
          rw [hst] at hqh
          exact absurd hqh (by simp [PState.isHandling])
        exact ⟨q, hq, by rw [upd_ne _ _ _ hqp]; exact hqc, by rw [upd_ne _ _ _ hqp]; exact hqh⟩
      · intro hex
        obtain ⟨q, hq, hqc, hqh⟩ := hex
        by_cases hqp : q = p
        · subst hqp
          rw [upd_self] at hqh
          exact absurd hqh (by simp [PState.isHandling])
        · rw [upd_ne _ _ _ hqp] at hqc hqh
          exact h0.2 ⟨q, hq, hqc, hqh⟩
    hQIn := hs.hQIn
    hOrder := hs.hOrder
  }

theorem inv_procStart (σ : St) (p r : Nat) (hs : Inv σ) (h1 : p < σ.nprocs)
    (hst : (σ.procs p).st = .notStarted) (hcm : σ.cmap ((σ.procs p).c) = some r)
    (hfl : (σ.heap r).processorRunning = false) :
    Inv { σ with
            heap := upd σ.heap r ⟨(σ.heap r).container, (σ.heap r).queue, (σ.heap r).lockRef, (σ.heap r).runningTask, true⟩
            procs := upd σ.procs p ⟨(σ.procs p).c, .waiting r⟩ } := by
  obtain ⟨hrlt, hrc⟩ := hs.hCmap _ r hcm
  have hcont : ∀ r', ((upd σ.heap r ⟨(σ.heap r).container, (σ.heap r).queue, (σ.heap r).lockRef, (σ.heap r).runningTask, true⟩) r').container = (σ.heap r').container :=
    upd_preserve σ.heap CQ.container r _ rfl
  have hqueue : ∀ r', ((upd σ.heap r ⟨(σ.heap r).container, (σ.heap r).queue, (σ.heap r).lockRef, (σ.heap r).runningTask, true⟩) r').queue = (σ.heap r').queue :=
    upd_preserve σ.heap CQ.queue r _ rfl
  have hlockref : ∀ r', ((upd σ.heap r ⟨(σ.heap r).container, (σ.heap r).queue, (σ.heap r).lockRef, (σ.heap r).runningTask, true⟩) r').lockRef = (σ.heap r').lockRef :=
    upd_preserve σ.heap CQ.lockRef r _ rfl
  have hnostart : ∀ q, q < σ.nprocs → (σ.procs q).st.isStarted = true → (σ.procs q).c ≠ (σ.procs p).c := by
    intro q hq hsq he
    obtain ⟨rq, e1, e2⟩ := hs.hFlag q hq hsq
    rw [he, hcm] at e1
    injection e1 with e1
    subst e1
    rw [hfl] at e2
    cases e2
  exact {
    hCmap := by
      dsimp only
      intro c' r' h
      obtain ⟨b1, b2⟩ := hs.hCmap c' r' h
      rw [hcont r']
      exact ⟨b1, b2⟩
    hOrphan := by
      dsimp only
      intro r' hr'
      rw [hcont r']
      exact hs.hOrphan r' hr'
    hQ := by
      dsimp only
      intro r' hr' u hu
      rw [hqueue r'] at hu
      rw [hcont r']
      exact hs.hQ r' hr' u hu
    hSorted := by
      dsimp only
      intro r' hr'
      rw [hqueue r']
      exact hs.hSorted r' hr'
    hDisj := by
      dsimp only
      intro ra rb hra hrb u hua hub
      rw [hqueue ra] at hua
      rw [hqueue rb] at hub
      exact hs.hDisj ra rb hra hrb u hua hub
    hStale := by
      dsimp only
      intro r' hr' hne u hu
      rw [hcont r'] at hne
      rw [hqueue r'] at hu
      exact hs.hStale r' hr' hne u hu
    hLockBound := by
      dsimp only
      intro r' hr'
      rw [hlockref r']
      exact hs.hLockBound r' hr'
    hLockSame := by
      dsimp only
      intro ra rb hra hrb hcc
      rw [hcont ra, hcont rb] at hcc
      rw [hlockref ra, hlockref rb]
      exact hs.hLockSame ra rb hra hrb hcc
    hLockInj := by
      dsimp only
      intro ra rb hra hrb hll
      rw [hlockref ra, hlockref rb] at hll
      rw [hcont ra, hcont rb]
      exact hs.hLockInj ra rb hra hrb hll
    hProc := by
      dsimp only
      intro p' hp'
      by_cases hpp : p' = p
      · subst hpp
        rw [upd_self]
        unfold ProcOK
        dsimp only
        rw [hcont r]
        exact ⟨hrlt, hrc⟩
      · rw [upd_ne _ _ _ hpp]
        have h0 := hs.hProc p' hp'
        unfold ProcOK at h0 ⊢
        cases hst' : (σ.procs p').st with
        | notStarted => exact trivial
        | done => exact trivial
        | waiting r'' =>
            rw [hst'] at h0
            dsimp only
            rw [hcont r'']
            exact h0
        | acquiring r'' t'' => rw [hst'] at h0; exact h0.elim
        | handling r'' t'' =>
            rw [hst'] at h0
            dsimp only
            rw [hcont r'']
            exact h0
    hOne := by
      dsimp only
      intro pa pb hpa hpb hne hsa hsb
      by_cases hap : pa = p
      · by_cases hbp : pb = p
        · exact absurd (hap.trans hbp.symm) hne
        · rw [hap]
          rw [upd_ne _ _ _ hbp] at hsb ⊢
          rw [upd_self]
          dsimp only
          exact fun he => hnostart pb hpb hsb he.symm
      · by_cases hbp : pb = p
        · rw [hbp]
          rw [upd_ne _ _ _ hap] at hsa ⊢
          rw [upd_self]
          dsimp only
          exact hnostart pa hpa hsa
        · rw [upd_ne _ _ _ hap] at hsa ⊢
          rw [upd_ne _ _ _ hbp] at hsb ⊢
          exact hs.hOne pa pb hpa hpb hne hsa hsb
    hFlag := by
      dsimp only
      intro p' hp' hstart
      by_cases hpp : p' = p
      · subst hpp
        rw [upd_self]
        exact ⟨r, hcm, by rw [upd_self]⟩
      · rw [upd_ne _ _ _ hpp] at hstart ⊢
        obtain ⟨rq, e1, e2⟩ := hs.hFlag p' hp' hstart
        refine ⟨rq, e1, ?_⟩
        by_cases hrr : rq = r
        · subst hrr
          rw [upd_self]
        · rw [upd_ne _ _ _ hrr]
          exact e2
    hRun := by
      dsimp only
      intro u hu hrun
      obtain ⟨q, hq, r'', hh⟩ := hs.hRun u hu hrun
      have hqp : q ≠ p := by
        intro he
        subst he
        rw [hst] at hh
        cases hh
      exact ⟨q, hq, r'', by rw [upd_ne _ _ _ hqp]; exact hh⟩
    hLockIff := by
      dsimp only
      intro c'' r' hcm'
      have h0 := hs.hLockIff c'' r' hcm'
      rw [hlockref r']
      constructor
      · intro hl
        obtain ⟨q, hq, hqc, hqh⟩ := h0.1 hl
        have hqp : q ≠ p := by
          intro he
          subst he
          rw [hst] at hqh
          exact absurd hqh (by simp [PState.isHandling])
        exact ⟨q, hq, by rw [upd_ne _ _ _ hqp]; exact hqc, by rw [upd_ne _ _ _ hqp]; exact hqh⟩
      · intro hex
        obtain ⟨q, hq, hqc, hqh⟩ := hex
        by_cases hqp : q = p
        · subst hqp
          rw [upd_self] at hqh
          exact absurd hqh (by simp [PState.isHandling])
        · rw [upd_ne _ _ _ hqp] at hqc hqh
          exact h0.2 ⟨q, hq, hqc, hqh⟩
    hQIn := by
      dsimp only
      intro u hu hqd
      obtain ⟨r', b1, b2⟩ := hs.hQIn u hu hqd
      exact ⟨r', b1, by rw [hqueue r']; exact b2⟩
    hOrder := hs.hOrder
  }

theorem inv_procRun (s : St) (p : Nat) (hs : Inv s) : Inv (procRunStep s p) := by
  by_cases h1 : p < s.nprocs
  · cases hst : (s.procs p).st with
    | waiting r => unfold procRunStep; rw [if_pos h1, hst]; exact hs
    | acquiring r t => unfold procRunStep; rw [if_pos h1, hst]; exact hs
    | handling r t => unfold procRunStep; rw [if_pos h1, hst]; exact hs
    | done => unfold procRunStep; rw [if_pos h1, hst]; exact hs
    | notStarted =>
        unfold procRunStep
        rw [if_pos h1, hst]
        dsimp only
        cases hcm : s.cmap ((s.procs p).c) with
        | some r =>
            rw [gcq_some _ _ r hcm]
            dsimp only
            by_cases hf : (s.heap r).processorRunning = true
            · rw [if_pos hf]
              exact inv_setProcDone s p _ hs h1 hst
            · rw [if_neg hf]
              exact inv_procStart s p r hs h1 hst hcm (by simpa using hf)
        | none =>
            rw [gcq_none _ _ hcm]
            dsimp only
            have hs1 : Inv ({ s with
                nheap := s.nheap + 1
                heap := upd s.heap s.nheap ⟨(s.procs p).c, [], s.nlocks, none, false⟩
                nlocks := s.nlocks + 1
                locks := upd s.locks s.nlocks false
                cmap := updS s.cmap ((s.procs p).c) (some s.nheap) } : St) := by
              have := inv_gcq s ((s.procs p).c) hs
              rw [gcq_none _ _ hcm] at this
              exact this
            have hcond : ((upd s.heap s.nheap (⟨(s.procs p).c, [], s.nlocks, none, false⟩ : CQ)) s.nheap).processorRunning = false := by
              rw [upd_self]
            rw [if_neg (by rw [hcond]; exact Bool.false_ne_true)]
            exact inv_procStart _ p s.nheap hs1 h1 hst (by exact updS_self _ _ _) hcond
  · unfold procRunStep
    rw [if_neg h1]
    exact hs

theorem upd_upd_same {α : Type} (f : Nat → α) (k : Nat) (v w : α) :
    upd (upd f k v) k w = upd f k w := by
  funext i
  by_cases h : i = k
  · subst h
    simp [upd]
  · simp [upd, h]

theorem queue_task_some (s : St) (c ty : String) (r : Nat) (h : s.cmap c = some r) :
    queue_task s c ty =
      ({ s with
          ntasks := s.ntasks + 1
          tasks := upd s.tasks s.ntasks ⟨c, ty, .queued, none, none, none, none⟩
          heap := upd s.heap r ⟨(s.heap r).container, (s.heap r).queue ++ [s.ntasks], (s.heap r).lockRef, (s.heap r).runningTask, (s.heap r).processorRunning⟩ },
       s.ntasks) := by
  unfold queue_task
  dsimp only
  rw [gcq_some _ c r (by exact h)]

theorem queue_task_none (s : St) (c ty : String) (h : s.cmap c = none) :
    queue_task s c ty =
      ({ s with
          ntasks := s.ntasks + 1
          tasks := upd s.tasks s.ntasks ⟨c, ty, .queued, none, none, none, none⟩
          nheap := s.nheap + 1
          heap := upd s.heap s.nheap ⟨c, [s.ntasks], s.nlocks, none, false⟩
          nlocks := s.nlocks + 1
          locks := upd s.locks s.nlocks false
          cmap := updS s.cmap c (some s.nheap) },
       s.ntasks) := by
  unfold queue_task
  dsimp only
  rw [gcq_none _ c (by exact h)]
  dsimp only
  rw [upd_self, upd_upd_same]
  rfl

theorem inv_enqCore (σ : St) (c ty : String) (r : Nat) (q₀ : List Nat) (L : Nat)
    (rt : Option Nat) (fl : Bool) (hs : Inv σ) (hcm : σ.cmap c = some r)
    (hobj : σ.heap r = ⟨c, q₀, L, rt, fl⟩) :
    Inv { σ with
            ntasks := σ.ntasks + 1
            tasks := upd σ.tasks σ.ntasks ⟨c, ty, .queued, none, none, none, none⟩
            heap := upd σ.heap r ⟨c, q₀ ++ [σ.ntasks], L, rt, fl⟩ } := by
  obtain ⟨hrlt, hrc⟩ := hs.hCmap c r hcm
  have hcont : ∀ r', ((upd σ.heap r (⟨c, q₀ ++ [σ.ntasks], L, rt, fl⟩ : CQ)) r').container = (σ.heap r').container :=
    upd_preserve σ.heap CQ.container r _ (by rw [hobj])
  have hlockref : ∀ r', ((upd σ.heap r (⟨c, q₀ ++ [σ.ntasks], L, rt, fl⟩ : CQ)) r').lockRef = (σ.heap r').lockRef :=
    upd_preserve σ.heap CQ.lockRef r _ (by rw [hobj])
  have hflag : ∀ r', ((upd σ.heap r (⟨c, q₀ ++ [σ.ntasks], L, rt, fl⟩ : CQ)) r').processorRunning = (σ.heap r').processorRunning :=
    upd_preserve σ.heap CQ.processorRunning r _ (by rw [hobj])
  have hqmem : ∀ r' u, u ∈ ((upd σ.heap r (⟨c, q₀ ++ [σ.ntasks], L, rt, fl⟩ : CQ)) r').queue →
      u ∈ (σ.heap r').queue ∨ (r' = r ∧ u = σ.ntasks) := by
    intro r' u hu
    by_cases hrr : r' = r
    · subst hrr
      rw [upd_self] at hu
      dsimp only at hu
      rcases List.mem_append.mp hu with h | h
      · left
        rw [hobj]
        exact h
      · right
        exact ⟨rfl, List.mem_singleton.mp h⟩
    · rw [upd_ne _ _ _ hrr] at hu
      exact Or.inl hu
  have hqbound : ∀ r' u, r' < σ.nheap → u ∈ (σ.heap r').queue → u < σ.ntasks := by
    intro r' u hr' hu
    exact (hs.hQ r' hr' u hu).1
  exact {
    hCmap := by
      dsimp only
      intro c' r' h
      obtain ⟨b1, b2⟩ := hs.hCmap c' r' h
      rw [hcont r']
      exact ⟨b1, b2⟩
    hOrphan := by
      dsimp only
      intro r' hr'
      rw [hcont r']
      exact hs.hOrphan r' hr'
    hQ := by
      dsimp only
      intro r' hr' u hu
      rcases hqmem r' u hu with hold | ⟨he1, he2⟩
      · obtain ⟨b1, b2, b3⟩ := hs.hQ r' hr' u hold
        have hune : u ≠ σ.ntasks := Nat.ne_of_lt b1
        rw [hcont r', upd_ne _ _ _ hune]
        exact ⟨Nat.lt_succ_of_lt b1, b2, b3⟩
      · rw [he1, he2]
        simp [upd]
    hSorted := by
      dsimp only
      intro r' hr'
      by_cases hrr : r' = r
      · rw [hrr, upd_self]
        dsimp only
        rw [List.pairwise_append]
        refine ⟨?_, List.pairwise_singleton _ _, ?_⟩
        · have hh := hs.hSorted r hrlt
          rw [hobj] at hh
          exact hh
        · intro a ha b hb
          rw [List.mem_singleton.mp hb]
          apply hqbound r a hrlt
          rw [hobj]
          exact ha
      · rw [upd_ne _ _ _ hrr]
        exact hs.hSorted r' hr'
    hDisj := by
      dsimp only
      intro ra rb hra hrb u hua hub
      rcases hqmem ra u hua with ha | ⟨hea, hua'⟩
      · rcases hqmem rb u hub with hb | ⟨heb, hub'⟩
        · exact hs.hDisj ra rb hra hrb u ha hb
        · subst hub'
          exact absurd (hqbound ra _ hra ha) (by omega)
      · rcases hqmem rb u hub with hb | ⟨heb, hub'⟩
        · subst hua'
          exact absurd (hqbound rb _ hrb hb) (by omega)
        · rw [hea, heb]
    hStale := by
      dsimp only
      intro r' hr' hne u hu
      rw [hcont r'] at hne
      by_cases hrr : r' = r
      · rw [hrr, hrc, hcm] at hne
        exact absurd rfl hne
      · rw [upd_ne _ _ _ hrr] at hu
        have hub := hqbound r' u hr' hu
        rw [upd_ne _ _ _ (Nat.ne_of_lt hub)]
        exact hs.hStale r' hr' hne u hu
    hLockBound := by
      dsimp only
      intro r' hr'
      rw [hlockref r']
      exact hs.hLockBound r' hr'
    hLockSame := by
      dsimp only
      intro ra rb hra hrb hcc
      rw [hcont ra, hcont rb] at hcc
      rw [hlockref ra, hlockref rb]
      exact hs.hLockSame ra rb hra hrb hcc
    hLockInj := by
      dsimp only
      intro ra rb hra hrb hll
      rw [hlockref ra, hlockref rb] at hll
      rw [hcont ra, hcont rb]
      exact hs.hLockInj ra rb hra hrb hll
    hProc := by
      dsimp only
      intro p' hp'
      have h0 := hs.hProc p' hp'
      unfold ProcOK at h0 ⊢
      cases hst' : (σ.procs p').st with
      | notStarted => exact trivial
      | done => exact trivial
      | waiting r'' =>
          rw [hst'] at h0
          dsimp only
          rw [hcont r'']
          exact h0
      | acquiring r'' t'' => rw [hst'] at h0; exact h0.elim
      | handling r'' t'' =>
          rw [hst'] at h0
          obtain ⟨b1, b2, b3, b4, b5⟩ := h0
          dsimp only
          rw [hcont r'', upd_ne _ _ _ (Nat.ne_of_lt b3)]
          exact ⟨b1, b2, Nat.lt_succ_of_lt b3, b4, b5⟩
    hOne := hs.hOne
    hFlag := by
      dsimp only
      intro p' hp' hstart
      obtain ⟨rq, e1, e2⟩ := hs.hFlag p' hp' hstart
      exact ⟨rq, e1, by rw [hflag rq]; exact e2⟩
    hRun := by
      dsimp only
      intro u hu hrun
      by_cases hut : u = σ.ntasks
      · subst hut
        rw [upd_self] at hrun
        exact absurd hrun (by simp)
      · rw [upd_ne _ _ _ hut] at hrun
        have hul : u < σ.ntasks := by
          rcases Nat.lt_succ_iff_lt_or_eq.mp hu with hh | hh
          · exact hh
          · exact absurd hh hut
        exact hs.hRun u hul hrun
    hLockIff := by
      dsimp only
      intro c'' r' hcm'
      rw [hlockref r']
      exact hs.hLockIff c'' r' hcm'
    hQIn := by
      dsimp only
      intro u hu hqd
      by_cases hut : u = σ.ntasks
      · subst hut
        refine ⟨r, hrlt, ?_⟩
        rw [upd_self]
        dsimp only
        exact List.mem_append_right _ (List.mem_singleton_self _)
      · rw [upd_ne _ _ _ hut] at hqd
        have hul : u < σ.ntasks := by
          rcases Nat.lt_succ_iff_lt_or_eq.mp hu with hh | hh
          · exact hh
          · exact absurd hh hut
        obtain ⟨r', b1, b2⟩ := hs.hQIn u hul hqd
        refine ⟨r', b1, ?_⟩
        by_cases hrr : r' = r
        · rw [hrr, upd_self]
          dsimp only
          apply List.mem_append_left
          rw [hrr, hobj] at b2
          exact b2
        · rw [upd_ne _ _ _ hrr]
          exact b2
    hOrder := by
      dsimp only
      intro i j hi hj hij hc hstj
      by_cases hjt : j = σ.ntasks
      · subst hjt
        rw [upd_self] at hstj
        exact absurd hstj (by simp [startedS])
      · have hjl : j < σ.ntasks := by
          rcases Nat.lt_succ_iff_lt_or_eq.mp hj with hh | hh
          · exact hh
          · exact absurd hh hjt
        have hil : i < σ.ntasks := Nat.lt_trans hij hjl
        rw [upd_ne _ _ _ hjt] at hstj hc
        rw [upd_ne _ _ _ (Nat.ne_of_lt hil)] at hc ⊢
        exact hs.hOrder i j hil hjl hij hc hstj
  }

theorem inv_queue_task (s : St) (c ty : String) (hs : Inv s) : Inv (queue_task s c ty).1 := by
  cases h : s.cmap c with
  | some r =>
      obtain ⟨hrlt, hrc⟩ := hs.hCmap c r h
      rw [queue_task_some s c ty r h]
      dsimp only
      rw [hrc]
      exact inv_enqCore s c ty r _ _ _ _ hs h (by rw [← hrc])
  | none =>
      rw [queue_task_none s c ty h]
      dsimp only
      have hs1 : Inv ({ s with
          nheap := s.nheap + 1
          heap := upd s.heap s.nheap ⟨c, [], s.nlocks, none, false⟩
          nlocks := s.nlocks + 1
          locks := upd s.locks s.nlocks false
          cmap := updS s.cmap c (some s.nheap) } : St) := by
        have := inv_gcq s c hs
        rw [gcq_none s c h] at this
        exact this
      rw [show upd s.heap s.nheap (⟨c, [s.ntasks], s.nlocks, none, false⟩ : CQ)
            = upd (upd s.heap s.nheap ⟨c, [], s.nlocks, none, false⟩) s.nheap ⟨c, [s.ntasks], s.nlocks, none, false⟩
          from (upd_upd_same _ _ _ _).symm]
      exact inv_enqCore _ c ty s.nheap [] s.nlocks none false hs1 (by exact updS_self _ _ _) (by exact upd_self _ _ _)

theorem clear_queue_none (s : St) (c : String) (h : s.cmap c = none) :
    clear_queue s c = (s, 0) := by
  simp [clear_queue, h]

theorem clear_queue_some (s : St) (c : String) (r : Nat) (h : s.cmap c = some r) :
    clear_queue s c =
      ({ s with
          tasks := fun i =>
            if i < s.ntasks ∧ (s.tasks i).container = c ∧ (s.tasks i).status = .queued
            then { s.tasks i with status := .cancelled, completedAt := some s.now }
            else s.tasks i
          nheap := s.nheap + 1
          heap := upd s.heap s.nheap ⟨c, [], (s.heap r).lockRef, (s.heap r).runningTask, (s.heap r).processorRunning⟩
          cmap := updS s.cmap c (some s.nheap) }, countStatus s c .queued) := by
  simp [clear_queue, h]

theorem inv_clear_queue (s : St) (c : String) (hs : Inv s) : Inv (clear_queue s c).1 := by
  cases h : s.cmap c with
  | none => rw [clear_queue_none s c h]; exact hs
  | some r =>
      obtain ⟨hrlt, hrc⟩ := hs.hCmap c r h
      rw [clear_queue_some s c r h]
      dsimp only
      have hsplit : ∀ i,
          ((if i < s.ntasks ∧ (s.tasks i).container = c ∧ (s.tasks i).status = .queued
            then ({ s.tasks i with status := .cancelled, completedAt := some s.now })
            else s.tasks i) = s.tasks i) ∨
          ((s.tasks i).status = .queued ∧
            ((if i < s.ntasks ∧ (s.tasks i).container = c ∧ (s.tasks i).status = .queued
              then ({ s.tasks i with status := .cancelled, completedAt := some s.now })
              else s.tasks i).status = .cancelled)) := by
        intro i
        by_cases hcnd : i < s.ntasks ∧ (s.tasks i).container = c ∧ (s.tasks i).status = .queued
        · right
          rw [if_pos hcnd]
          exact ⟨hcnd.2.2, rfl⟩
        · left
          rw [if_neg hcnd]
      have htcont : ∀ i,
          ((if i < s.ntasks ∧ (s.tasks i).container = c ∧ (s.tasks i).status = .queued
            then ({ s.tasks i with status := .cancelled, completedAt := some s.now })
            else s.tasks i)).container = (s.tasks i).container := by
        intro i
        by_cases hcnd : i < s.ntasks ∧ (s.tasks i).container = c ∧ (s.tasks i).status = .queued
        · rw [if_pos hcnd]
        · rw [if_neg hcnd]
      have htrun : ∀ i, (s.tasks i).status ≠ .queued →
          (if i < s.ntasks ∧ (s.tasks i).container = c ∧ (s.tasks i).status = .queued
            then ({ s.tasks i with status := .cancelled, completedAt := some s.now })
            else s.tasks i) = s.tasks i := by
        intro i hnq
        rw [if_neg (fun hcnd => hnq hcnd.2.2)]
      exact {
        hCmap := by
          dsimp only
          intro c' r' hcm
          by_cases hcc : c' = c
          · rw [hcc, updS_self] at hcm
            injection hcm with he
            rw [← he]
            exact ⟨Nat.lt_succ_self _, by rw [upd_self]; exact hcc.symm ▸ rfl⟩
          · rw [updS_ne _ _ _ hcc] at hcm
            obtain ⟨b1, b2⟩ := hs.hCmap c' r' hcm
            exact ⟨Nat.lt_succ_of_lt b1, by rw [upd_ne _ _ _ (Nat.ne_of_lt b1)]; exact b2⟩
        hOrphan := by
          dsimp only
          intro r' hr'
          rcases Nat.lt_succ_iff_lt_or_eq.mp hr' with hlt | he
          · rw [upd_ne _ _ _ (Nat.ne_of_lt hlt)]
            by_cases hcc : (s.heap r').container = c
            · rw [hcc, updS_self]
              simp
            · rw [updS_ne _ _ _ hcc]
              exact hs.hOrphan r' hlt
          · rw [he, upd_self]
            dsimp only
            rw [updS_self]
            simp
        hQ := by
          dsimp only
          intro r' hr' u hu
          rcases Nat.lt_succ_iff_lt_or_eq.mp hr' with hlt | he
          · rw [upd_ne _ _ _ (Nat.ne_of_lt hlt)] at hu ⊢
            obtain ⟨b1, b2, b3⟩ := hs.hQ r' hlt u hu
            refine ⟨b1, by rw [htcont u]; exact b2, ?_⟩
            rcases hsplit u with heq | ⟨-, hcanc⟩
            · rw [heq]
              exact b3
            · exact Or.inr hcanc
          · rw [he, upd_self] at hu
            simp at hu
        hSorted := by
          dsimp only
          intro r' hr'
          rcases Nat.lt_succ_iff_lt_or_eq.mp hr' with hlt | he
          · rw [upd_ne _ _ _ (Nat.ne_of_lt hlt)]
            exact hs.hSorted r' hlt
          · rw [he, upd_self]
            exact List.Pairwise.nil
        hDisj := by
          dsimp only
          intro ra rb hra hrb u hua hub
          rcases Nat.lt_succ_iff_lt_or_eq.mp hra with hla | hea
          · rcases Nat.lt_succ_iff_lt_or_eq.mp hrb with hlb | heb
            · rw [upd_ne _ _ _ (Nat.ne_of_lt hla)] at hua
              rw [upd_ne _ _ _ (Nat.ne_of_lt hlb)] at hub
              exact hs.hDisj ra rb hla hlb u hua hub
            · rw [heb, upd_self] at hub
              simp at hub
          · rw [hea, upd_self] at hua
            simp at hua
        hStale := by
          dsimp only
          intro r' hr' hne u hu
          rcases Nat.lt_succ_iff_lt_or_eq.mp hr' with hlt | he
          · rw [upd_ne _ _ _ (Nat.ne_of_lt hlt)] at hne hu
            obtain ⟨b1, b2, b3⟩ := hs.hQ r' hlt u hu
            by_cases hcc : (s.heap r').container = c
            · rcases b3 with hq | hcanc
              · rw [if_pos ⟨b1, by rw [b2]; exact hcc, hq⟩]
              · rcases hsplit u with heq | ⟨hq, hcanc'⟩
                · rw [heq]
                  exact hcanc
                · exact hcanc'
            · rw [updS_ne _ _ _ hcc] at hne
              have hold := hs.hStale r' hlt hne u hu
              rw [htrun u (by rw [hold]; exact fun hx => by cases hx)]
              exact hold
          · rw [he, upd_self] at hu
            simp at hu
        hLockBound := by
          dsimp only
          intro r' hr'
          rcases Nat.lt_succ_iff_lt_or_eq.mp hr' with hlt | he
          · rw [upd_ne _ _ _ (Nat.ne_of_lt hlt)]
            exact hs.hLockBound r' hlt
          · rw [he, upd_self]
            exact hs.hLockBound r hrlt
        hLockSame := by
          dsimp only
          intro ra rb hra hrb hcc
          rcases Nat.lt_succ_iff_lt_or_eq.mp hra with hla | hea
          · rcases Nat.lt_succ_iff_lt_or_eq.mp hrb with hlb | heb
            · rw [upd_ne _ _ _ (Nat.ne_of_lt hla), upd_ne _ _ _ (Nat.ne_of_lt hlb)] at hcc ⊢
              exact hs.hLockSame ra rb hla hlb hcc
            · rw [upd_ne _ _ _ (Nat.ne_of_lt hla), heb, upd_self] at hcc
              rw [upd_ne _ _ _ (Nat.ne_of_lt hla), heb, upd_self]
              dsimp only at hcc ⊢
              exact hs.hLockSame ra r hla hrlt (by rw [hcc, hrc])
          · rcases Nat.lt_succ_iff_lt_or_eq.mp hrb with hlb | heb
            · rw [hea, upd_self, upd_ne _ _ _ (Nat.ne_of_lt hlb)] at hcc
              rw [hea, upd_self, upd_ne _ _ _ (Nat.ne_of_lt hlb)]
              dsimp only at hcc ⊢
              exact (hs.hLockSame rb r hlb hrlt (by rw [← hcc, hrc])).symm
            · rw [hea, heb]
        hLockInj := by
          dsimp only
          intro ra rb hra hrb hll
          rcases Nat.lt_succ_iff_lt_or_eq.mp hra with hla | hea
          · rcases Nat.lt_succ_iff_lt_or_eq.mp hrb with hlb | heb
            · rw [upd_ne _ _ _ (Nat.ne_of_lt hla), upd_ne _ _ _ (Nat.ne_of_lt hlb)] at hll ⊢
              exact hs.hLockInj ra rb hla hlb hll
            · rw [upd_ne _ _ _ (Nat.ne_of_lt hla), heb, upd_self] at hll
              rw [upd_ne _ _ _ (Nat.ne_of_lt hla), heb, upd_self]
              dsimp only at hll ⊢
              rw [hs.hLockInj ra r hla hrlt hll, hrc]
          · rcases Nat.lt_succ_iff_lt_or_eq.mp hrb with hlb | heb
            · rw [hea, upd_self, upd_ne _ _ _ (Nat.ne_of_lt hlb)] at hll
              rw [hea, upd_self, upd_ne _ _ _ (Nat.ne_of_lt hlb)]
              dsimp only at hll ⊢
              rw [hs.hLockInj rb r hlb hrlt hll.symm, hrc]
            · rw [hea, heb]
        hProc := by
          dsimp only
          intro p' hp'
          have h0 := hs.hProc p' hp'
          unfold ProcOK at h0 ⊢
          cases hst' : (s.procs p').st with
          | notStarted => exact trivial
          | done => exact trivial
          | waiting r'' =>
              rw [hst'] at h0
              obtain ⟨b1, b2⟩ := h0
              dsimp only
              rw [upd_ne _ _ _ (Nat.ne_of_lt b1)]
              exact ⟨Nat.lt_succ_of_lt b1, b2⟩
          | acquiring r'' t'' => rw [hst'] at h0; exact h0.elim
          | handling r'' t'' =>
              rw [hst'] at h0
              obtain ⟨b1, b2, b3, b4, b5⟩ := h0
              dsimp only
              rw [upd_ne _ _ _ (Nat.ne_of_lt b1)]
              rw [htrun t'' (by rw [b5]; exact fun hx => by cases hx)]
              exact ⟨Nat.lt_succ_of_lt b1, b2, b3, b4, b5⟩
        hOne := hs.hOne
        hFlag := by
          dsimp only
          intro p' hp' hstart
          obtain ⟨rq, e1, e2⟩ := hs.hFlag p' hp' hstart
          by_cases hcc : (s.procs p').c = c
          · rw [hcc, h] at e1
            injection e1 with e1
            refine ⟨s.nheap, by rw [hcc, updS_self], ?_⟩
            rw [upd_self]
            dsimp only
            rw [e1]
            exact e2
          · obtain ⟨d1, -⟩ := hs.hCmap _ rq e1
            refine ⟨rq, by rw [updS_ne _ _ _ hcc]; exact e1, ?_⟩
            rw [upd_ne _ _ _ (Nat.ne_of_lt d1)]
            exact e2
        hRun := by
          dsimp only
          intro u hu hrun
          rcases hsplit u with heq | ⟨-, hcanc⟩
          · rw [heq] at hrun
            exact hs.hRun u hu hrun
          · rw [hcanc] at hrun
            cases hrun
        hLockIff := by
          dsimp only
          intro c' r' hcm
          by_cases hcc : c' = c
          · rw [hcc, updS_self] at hcm
            injection hcm with he
            rw [← he, upd_self]
            dsimp only
            rw [hcc]
            exact hs.hLockIff c r h
          · rw [updS_ne _ _ _ hcc] at hcm
            obtain ⟨d1, -⟩ := hs.hCmap c' r' hcm
            rw [upd_ne _ _ _ (Nat.ne_of_lt d1)]
            exact hs.hLockIff c' r' hcm
        hQIn := by
          dsimp only
          intro u hu hqd
          rcases hsplit u with heq | ⟨-, hcanc⟩
          · rw [heq] at hqd
            obtain ⟨r', b1, b2⟩ := hs.hQIn u hu hqd
            exact ⟨r', Nat.lt_succ_of_lt b1, by rw [upd_ne _ _ _ (Nat.ne_of_lt b1)]; exact b2⟩
          · rw [hcanc] at hqd
            cases hqd
        hOrder := by
          dsimp only
          intro i j hi hj hij hc hstj
          rcases hsplit j with heqj | ⟨-, hcancj⟩
          · rw [heqj] at hstj
            rw [htcont i, htcont j] at hc
            have hterm := hs.hOrder i j hi hj hij hc hstj
            rcases hsplit i with heqi | ⟨-, hcanci⟩
            · rw [heqi]
              exact hterm
            · unfold terminalS
              rw [hcanci]
              exact Or.inr (Or.inr rfl)
          · rw [hcancj] at hstj
            exact absurd hstj (by simp [startedS])
      }

theorem procNext_skip (s : St) (p r t : Nat) (rest : List Nat) (h1 : p < s.nprocs)
    (hw : (s.procs p).st = .waiting r) (hqe : (s.heap r).queue = t :: rest)
    (hcanc : (s.tasks t).status = .cancelled) :
    procNextStep s p =
      { s with heap := upd s.heap r ⟨(s.heap r).container, rest, (s.heap r).lockRef, (s.heap r).runningTask, (s.heap r).processorRunning⟩ } := by
  simp [procNextStep, h1, hw, hqe, hcanc]

theorem procNext_run (s : St) (p r t : Nat) (rest : List Nat) (h1 : p < s.nprocs)
    (hw : (s.procs p).st = .waiting r) (hqe : (s.heap r).queue = t :: rest)
    (hcanc : ¬(s.tasks t).status = .cancelled)
    (hlock : s.locks ((s.heap r).lockRef) = false) :
    procNextStep s p =
      { s with
          heap := upd s.heap r ⟨(s.heap r).container, rest, (s.heap r).lockRef, some t, (s.heap r).processorRunning⟩
          locks := upd s.locks ((s.heap r).lockRef) true
          tasks := upd s.tasks t ⟨(s.tasks t).container, (s.tasks t).taskType, .running, some s.now, (s.tasks t).completedAt, (s.tasks t).result, (s.tasks t).error⟩
          procs := upd s.procs p ⟨(s.procs p).c, .handling r t⟩ } := by
  simp [procNextStep, h1, hw, hqe, hcanc, hlock]

theorem inv_procNext (s : St) (p : Nat) (hs : Inv s) : Inv (procNextStep s p) := by
  by_cases h1 : p < s.nprocs
  · cases hw : (s.procs p).st with
    | notStarted => unfold procNextStep; rw [if_pos h1, hw]; exact hs
    | acquiring r t => unfold procNextStep; rw [if_pos h1, hw]; exact hs
    | handling r t => unfold procNextStep; rw [if_pos h1, hw]; exact hs
    | done => unfold procNextStep; rw [if_pos h1, hw]; exact hs
    | waiting r =>
        have hpr := hs.hProc p h1
        unfold ProcOK at hpr
        rw [hw] at hpr
        obtain ⟨hrlt, hrc⟩ := hpr
        cases hqe : (s.heap r).queue with
        | nil =>
            unfold procNextStep
            rw [if_pos h1, hw]
            dsimp only
            rw [hqe]
            exact hs
        | cons t rest =>
            have htmem : t ∈ (s.heap r).queue := by rw [hqe]; exact List.mem_cons_self _ _
            obtain ⟨htlt, htc, hts⟩ := hs.hQ r hrlt t htmem
            have htrest : t ∉ rest := by
              intro hmem
              have hpw := hs.hSorted r hrlt
              rw [hqe] at hpw
              exact absurd rfl (Nat.ne_of_lt ((List.pairwise_cons.mp hpw).1 t hmem))
            by_cases hcanc : (s.tasks t).status = .cancelled
            · rw [procNext_skip s p r t rest h1 hw hqe hcanc]
              have hcont : ∀ r', ((upd s.heap r ⟨(s.heap r).container, rest, (s.heap r).lockRef, (s.heap r).runningTask, (s.heap r).processorRunning⟩) r').container = (s.heap r').container :=
                upd_preserve s.heap CQ.container r _ rfl
              have hlockref : ∀ r', ((upd s.heap r ⟨(s.heap r).container, rest, (s.heap r).lockRef, (s.heap r).runningTask, (s.heap r).processorRunning⟩) r').lockRef = (s.heap r').lockRef :=
                upd_preserve s.heap CQ.lockRef r _ rfl
              have hflag : ∀ r', ((upd s.heap r ⟨(s.heap r).container, rest, (s.heap r).lockRef, (s.heap r).runningTask, (s.heap r).processorRunning⟩) r').processorRunning = (s.heap r').processorRunning :=
                upd_preserve s.heap CQ.processorRunning r _ rfl
              have hqmem : ∀ r' u, u ∈ ((upd s.heap r ⟨(s.heap r).container, rest, (s.heap r).lockRef, (s.heap r).runningTask, (s.heap r).processorRunning⟩) r').queue → u ∈ (s.heap r').queue := by
                intro r' u hu
                by_cases hrr : r' = r
                · rw [hrr, upd_self] at hu
                  rw [hrr, hqe]
                  exact List.mem_cons_of_mem _ hu
                · rw [upd_ne _ _ _ hrr] at hu
                  exact hu
              exact {
                hCmap := by
                  dsimp only
                  intro c' r' h
                  obtain ⟨b1, b2⟩ := hs.hCmap c' r' h
                  rw [hcont r']
                  exact ⟨b1, b2⟩
                hOrphan := by
                  dsimp only
                  intro r' hr'
                  rw [hcont r']
                  exact hs.hOrphan r' hr'
                hQ := by
                  dsimp only
                  intro r' hr' u hu
                  rw [hcont r']
                  exact hs.hQ r' hr' u (hqmem r' u hu)
                hSorted := by
                  dsimp only
                  intro r' hr'
                  by_cases hrr : r' = r
                  · rw [hrr, upd_self]
                    dsimp only
                    have hpw := hs.hSorted r hrlt
                    rw [hqe] at hpw
                    exact (List.pairwise_cons.mp hpw).2
                  · rw [upd_ne _ _ _ hrr]
                    exact hs.hSorted r' hr'
                hDisj := by
                  dsimp only
                  intro ra rb hra hrb u hua hub
                  exact hs.hDisj ra rb hra hrb u (hqmem ra u hua) (hqmem rb u hub)
                hStale := by
                  dsimp only
                  intro r' hr' hne u hu
                  rw [hcont r'] at hne
                  exact hs.hStale r' hr' hne u (hqmem r' u hu)
                hLockBound := by
                  dsimp only
                  intro r' hr'
                  rw [hlockref r']
                  exact hs.hLockBound r' hr'
                hLockSame := by
                  dsimp only
                  intro ra rb hra hrb hcc
                  rw [hcont ra, hcont rb] at hcc
                  rw [hlockref ra, hlockref rb]
                  exact hs.hLockSame ra rb hra hrb hcc
                hLockInj := by
                  dsimp only
                  intro ra rb hra hrb hll
                  rw [hlockref ra, hlockref rb] at hll
                  rw [hcont ra, hcont rb]
                  exact hs.hLockInj ra rb hra hrb hll
                hProc := by
                  dsimp only
                  intro p' hp'
                  have h0 := hs.hProc p' hp'
                  unfold ProcOK at h0 ⊢
                  cases hst' : (s.procs p').st with
                  | notStarted => exact trivial
                  | done => exact trivial
                  | waiting r'' =>
                      rw [hst'] at h0
                      dsimp only
                      rw [hcont r'']
                      exact h0
                  | acquiring r'' t'' => rw [hst'] at h0; exact h0.elim
                  | handling r'' t'' =>
                      rw [hst'] at h0
                      dsimp only
                      rw [hcont r'']
                      exact h0
                hOne := hs.hOne
                hFlag := by
                  dsimp only
                  intro p' hp' hstart
                  obtain ⟨rq, e1, e2⟩ := hs.hFlag p' hp' hstart
                  exact ⟨rq, e1, by rw [hflag rq]; exact e2⟩
                hRun := hs.hRun
                hLockIff := by
                  dsimp only
                  intro c' r' hcm
                  rw [hlockref r']
                  exact hs.hLockIff c' r' hcm
                hQIn := by
                  dsimp only
                  intro u hu hqd
                  obtain ⟨r', b1, b2⟩ := hs.hQIn u hu hqd
                  refine ⟨r', b1, ?_⟩
                  by_cases hrr : r' = r
                  · rw [hrr, upd_self]
                    dsimp only
                    rw [hrr, hqe] at b2
                    rcases List.mem_cons.mp b2 with he | hm
                    · rw [he] at hqd
                      rw [hcanc] at hqd
                      cases hqd
                    · exact hm
                  · rw [upd_ne _ _ _ hrr]
                    exact b2
                hOrder := hs.hOrder
              }
            · have hq : (s.tasks t).status = .queued := by
                rcases hts with h' | h'
                · exact h'
                · exact absurd h' hcanc
              have hcur : s.cmap ((s.heap r).container) = some r := by
                by_contra hne
                exact hcanc (hs.hStale r hrlt hne t htmem)
              have hlock : s.locks ((s.heap r).lockRef) = false := by
                by_contra hne
                have hne' : s.locks ((s.heap r).lockRef) = true := by
                  cases hb : s.locks ((s.heap r).lockRef)
                  · exact absurd hb hne
                  · rfl
                obtain ⟨q, hqlt, hqc, hqh⟩ := (hs.hLockIff _ r hcur).1 hne'
                have hqp : q ≠ p := by
                  intro he
                  rw [he, hw] at hqh
                  exact absurd hqh (by simp [PState.isHandling])
                have hqstart : (s.procs q).st.isStarted = true := by
                  cases hq' : (s.procs q).st <;> simp [PState.isHandling, hq'] at hqh ⊢ <;> simp [PState.isStarted]
                exact hs.hOne q p hqlt h1 hqp hqstart (by rw [hw]; rfl) (by rw [hqc, hrc])
              rw [procNext_run s p r t rest h1 hw hqe hcanc hlock]
              have hcont : ∀ r', ((upd s.heap r ⟨(s.heap r).container, rest, (s.heap r).lockRef, some t, (s.heap r).processorRunning⟩) r').container = (s.heap r').container :=
                upd_preserve s.heap CQ.container r _ rfl
              have hlockref : ∀ r', ((upd s.heap r ⟨(s.heap r).container, rest, (s.heap r).lockRef, some t, (s.heap r).processorRunning⟩) r').lockRef = (s.heap r').lockRef :=
                upd_preserve s.heap CQ.lockRef r _ rfl
              have hflag : ∀ r', ((upd s.heap r ⟨(s.heap r).container, rest, (s.heap r).lockRef, some t, (s.heap r).processorRunning⟩) r').processorRunning = (s.heap r').processorRunning :=
                upd_preserve s.heap CQ.processorRunning r _ rfl
              have hqmem : ∀ r' u, r' < s.nheap → u ∈ ((upd s.heap r ⟨(s.heap r).container, rest, (s.heap r).lockRef, some t, (s.heap r).processorRunning⟩) r').queue → u ∈ (s.heap r').queue ∧ u ≠ t := by
                intro r' u hr' hu
                by_cases hrr : r' = r
                · rw [hrr, upd_self] at hu
                  dsimp only at hu
                  refine ⟨by rw [hrr, hqe]; exact List.mem_cons_of_mem _ hu, ?_⟩
                  intro he
                  rw [he] at hu
                  exact htrest hu
                · rw [upd_ne _ _ _ hrr] at hu
                  refine ⟨hu, ?_⟩
                  intro he
                  rw [he] at hu
                  exact hrr (hs.hDisj r' r hr' hrlt t hu htmem)
              exact {
                hCmap := by
                  dsimp only
                  intro c' r' h
                  obtain ⟨b1, b2⟩ := hs.hCmap c' r' h
                  rw [hcont r']
                  exact ⟨b1, b2⟩
                hOrphan := by
                  dsimp only
                  intro r' hr'
                  rw [hcont r']
                  exact hs.hOrphan r' hr'
                hQ := by
                  dsimp only
                  intro r' hr' u hu
                  obtain ⟨hold, hut⟩ := hqmem r' u hr' hu
                  obtain ⟨b1, b2, b3⟩ := hs.hQ r' hr' u hold
                  rw [hcont r', upd_ne _ _ _ hut]
                  exact ⟨b1, b2, b3⟩
                hSorted := by
                  dsimp only
                  intro r' hr'
                  by_cases hrr : r' = r
                  · rw [hrr, upd_self]
                    dsimp only
                    have hpw := hs.hSorted r hrlt
                    rw [hqe] at hpw
                    exact (List.pairwise_cons.mp hpw).2
                  · rw [upd_ne _ _ _ hrr]
                    exact hs.hSorted r' hr'
                hDisj := by
                  dsimp only
                  intro ra rb hra hrb u hua hub
                  exact hs.hDisj ra rb hra hrb u (hqmem ra u hra hua).1 (hqmem rb u hrb hub).1
                hStale := by
                  dsimp only
                  intro r' hr' hne u hu
                  rw [hcont r'] at hne
                  by_cases hrr : r' = r
                  · rw [hrr] at hne
                    exact absurd hcur hne
                  · obtain ⟨hold, hut⟩ := hqmem r' u hr' hu
                    rw [upd_ne _ _ _ hut]
                    exact hs.hStale r' hr' hne u hold
                hLockBound := by
                  dsimp only
                  intro r' hr'
                  rw [hlockref r']
                  exact hs.hLockBound r' hr'
                hLockSame := by
                  dsimp only
                  intro ra rb hra hrb hcc
                  rw [hcont ra, hcont rb] at hcc
                  rw [hlockref ra, hlockref rb]
                  exact hs.hLockSame ra rb hra hrb hcc
                hLockInj := by
                  dsimp only
                  intro ra rb hra hrb hll
                  rw [hlockref ra, hlockref rb] at hll
                  rw [hcont ra, hcont rb]
                  exact hs.hLockInj ra rb hra hrb hll
                hProc := by
                  dsimp only
                  intro p' hp'
                  by_cases hpp : p' = p
                  · rw [hpp, upd_self]
                    unfold ProcOK
                    dsimp only
                    rw [hcont r, upd_self]
                    exact ⟨hrlt, hrc, htlt, by dsimp only; rw [htc, hrc], rfl⟩
                  · rw [upd_ne _ _ _ hpp]
                    have h0 := hs.hProc p' hp'
                    unfold ProcOK at h0 ⊢
                    cases hst' : (s.procs p').st with
                    | notStarted => exact trivial
                    | done => exact trivial
                    | waiting r'' =>
                        rw [hst'] at h0
                        dsimp only
                        rw [hcont r'']
                        exact h0
                    | acquiring r'' t'' => rw [hst'] at h0; exact h0.elim
                    | handling r'' t'' =>
                        rw [hst'] at h0
                        obtain ⟨b1, b2, b3, b4, b5⟩ := h0
                        have htt : t'' ≠ t := by
                          intro he
                          rw [he, hq] at b5
                          cases b5
                        dsimp only
                        rw [hcont r'', upd_ne _ _ _ htt]
                        exact ⟨b1, b2, b3, b4, b5⟩
                hOne := by
                  dsimp only
                  intro pa pb hpa hpb hne hsa hsb
                  have ea : ∀ q, ((upd s.procs p (⟨(s.procs p).c, .handling r t⟩ : Proc)) q).st.isStarted = true → ((upd s.procs p (⟨(s.procs p).c, .handling r t⟩ : Proc)) q).c = (s.procs q).c ∧ (s.procs q).st.isStarted = true := by
                    intro q hsq
                    by_cases hqp : q = p
                    · rw [hqp, upd_self]
                      exact ⟨rfl, by rw [hw]; rfl⟩
                    · rw [upd_ne _ _ _ hqp] at hsq ⊢
                      exact ⟨rfl, hsq⟩
                  obtain ⟨ca, sa⟩ := ea pa hsa
                  obtain ⟨cb, sb⟩ := ea pb hsb
                  rw [ca, cb]
                  exact hs.hOne pa pb hpa hpb hne sa sb
                hFlag := by
                  dsimp only
                  intro p' hp' hstart
                  by_cases hpp : p' = p
                  · rw [hpp, upd_self]
                    dsimp only
                    obtain ⟨rc, e1, e2⟩ := hs.hFlag p h1 (by rw [hw]; rfl)
                    exact ⟨rc, e1, by rw [hflag rc]; exact e2⟩
                  · rw [upd_ne _ _ _ hpp] at hstart ⊢
                    obtain ⟨rc, e1, e2⟩ := hs.hFlag p' hp' hstart
                    exact ⟨rc, e1, by rw [hflag rc]; exact e2⟩
                hRun := by
                  dsimp only
                  intro u hu hrun
                  by_cases hut : u = t
                  · exact ⟨p, h1, r, by rw [upd_self, hut]⟩
                  · rw [upd_ne _ _ _ hut] at hrun
                    obtain ⟨q, hq', r'', hh⟩ := hs.hRun u hu hrun
                    have hqp : q ≠ p := by
                      intro he
                      rw [he, hw] at hh
                      cases hh
                    exact ⟨q, hq', r'', by rw [upd_ne _ _ _ hqp]; exact hh⟩
                hLockIff := by
                  dsimp only
                  intro c' r' hcm
                  obtain ⟨d1, d2⟩ := hs.hCmap c' r' hcm
                  rw [hlockref r']
                  by_cases hll : (s.heap r').lockRef = (s.heap r).lockRef
                  · have hcc : c' = (s.heap r).container := by
                      rw [← d2]
                      exact hs.hLockInj r' r d1 hrlt hll
                    have hrr : r' = r := by
                      rw [hcc, hcur] at hcm
                      injection hcm with he
                      exact he.symm
                    rw [hll, upd_self]
                    constructor
                    · intro hx
                      exact ⟨p, h1, by rw [upd_self]; dsimp only; rw [hcc, hrc], by rw [upd_self]; rfl⟩
                    · intro hx
                      rfl
                  · rw [upd_ne _ _ _ hll]
                    have h0 := hs.hLockIff c' r' hcm
                    have hcne : c' ≠ (s.procs p).c := by
                      intro he
                      apply hll
                      have : s.cmap ((s.procs p).c) = some r := by rw [← hrc]; exact hcur
                      rw [he, this] at hcm
                      injection hcm with hinj
                      rw [hinj]
                    constructor
                    · intro hl
                      obtain ⟨q, hq', hqc, hqh⟩ := h0.1 hl
                      have hqp : q ≠ p := by
                        intro he
                        rw [he, hw] at hqh
                        exact absurd hqh (by simp [PState.isHandling])
                      exact ⟨q, hq', by rw [upd_ne _ _ _ hqp]; exact hqc, by rw [upd_ne _ _ _ hqp]; exact hqh⟩
                    · intro hex
                      obtain ⟨q, hq', hqc, hqh⟩ := hex
                      by_cases hqp : q = p
                      · rw [hqp, upd_self] at hqc
                        dsimp only at hqc
                        exact absurd hqc.symm hcne
                      · rw [upd_ne _ _ _ hqp] at hqc hqh
                        exact h0.2 ⟨q, hq', hqc, hqh⟩
                hQIn := by
                  dsimp only
                  intro u hu hqd
                  by_cases hut : u = t
                  · rw [hut, upd_self] at hqd
                    cases hqd
                  · rw [upd_ne _ _ _ hut] at hqd
                    obtain ⟨r', b1, b2⟩ := hs.hQIn u hu hqd
                    refine ⟨r', b1, ?_⟩
                    by_cases hrr : r' = r
                    · rw [hrr, upd_self]
                      dsimp only
                      rw [hrr, hqe] at b2
                      rcases List.mem_cons.mp b2 with he | hm
                      · exact absurd he hut
                      · exact hm
                    · rw [upd_ne _ _ _ hrr]
                      exact b2
                hOrder := by
                  dsimp only
                  intro i j hi hj hij hc hstj
                  by_cases hjt : j = t
                  · have hit : i ≠ t := by omega
                    rw [upd_ne _ _ _ hit] at hc ⊢
                    rw [hjt, upd_self] at hc
                    dsimp only at hc
                    have hicont : (s.tasks i).container = (s.heap r).container := by
                      rw [hc, htc]
                    rcases hstatus : (s.tasks i).status with h'' | h'' | h'' | h'' | h''
                    · exfalso
                      obtain ⟨r', b1, b2⟩ := hs.hQIn i hi hstatus
                      by_cases hrr : r' = r
                      · rw [hrr, hqe] at b2
                        rcases List.mem_cons.mp b2 with he | hm
                        · rw [hjt] at hij
                          omega
                        · have hpw := hs.hSorted r hrlt
                          rw [hqe] at hpw
                          have := (List.pairwise_cons.mp hpw).1 i hm
                          rw [hjt] at hij
                          omega
                      · have hbc : (s.heap r').container = (s.tasks i).container :=
                          ((hs.hQ r' b1 i b2).2.1).symm
                        have hne' : s.cmap ((s.heap r').container) ≠ some r' := by
                          rw [hbc, hicont, hcur]
                          intro he
                          injection he with he
                          exact hrr he.symm
                        have := hs.hStale r' b1 hne' i b2
                        rw [hstatus] at this
                        cases this
                    · exfalso
                      obtain ⟨q, hq', r'', hh⟩ := hs.hRun i hi hstatus
                      have h0 := hs.hProc q hq'
                      unfold ProcOK at h0
                      rw [hh] at h0
                      obtain ⟨-, -, -, b4, -⟩ := h0
                      have hqp : q ≠ p := by
                        intro he
                        rw [he, hw] at hh
                        cases hh
                      have hqstart : (s.procs q).st.isStarted = true := by
                        rw [hh]
                        rfl
                      apply hs.hOne q p hq' h1 hqp hqstart (by rw [hw]; rfl)
                      rw [← b4, hicont, hrc]
                    · decide
                    · decide
                    · decide
                  · rw [upd_ne _ _ _ hjt] at hstj hc
                    by_cases hit : i = t
                    · exfalso
                      rw [hit, upd_self] at hc
                      dsimp only at hc
                      have := hs.hOrder t j htlt hj (by omega) (by rw [← hc]) hstj
                      rw [hq] at this
                      rcases this with h'' | h'' | h'' <;> cases h''
                    · rw [upd_ne _ _ _ hit] at hc ⊢
                      exact hs.hOrder i j hi hj hij hc hstj
              }
  · unfold procNextStep
    rw [if_neg h1]
    exact hs

theorem inv_stepEv (s : St) (e : Ev) (hs : Inv s) : Inv (stepEv s e) := by
  cases e with
  | enqueue c ty => exact inv_queue_task s c ty hs
  | startP c => exact inv_start_processor s c hs
  | cancel tid => exact inv_cancel_task s tid hs
  | clear c => exact inv_clear_queue s c hs
  | procRun p => exact inv_procRun s p hs
  | procNext p => exact inv_procNext s p hs
  | procAcquire p => exact inv_procAcquire s p hs
  | procFinish p ok err => exact inv_procFinish s p ok err hs
  | procTimeout p => exact inv_procTimeout s p hs

theorem inv_now (s : St) (m : Nat) (hs : Inv s) : Inv { s with now := m } :=
  {
    hCmap := hs.hCmap
    hOrphan := hs.hOrphan
    hQ := hs.hQ
    hSorted := hs.hSorted
    hDisj := hs.hDisj
    hStale := hs.hStale
    hLockBound := hs.hLockBound
    hLockSame := hs.hLockSame
    hLockInj := hs.hLockInj
    hProc := by
      intro p hp
      have h0 := hs.hProc p hp
      unfold ProcOK at h0 ⊢
      exact h0
    hOne := hs.hOne
    hFlag := hs.hFlag
    hRun := hs.hRun
    hLockIff := hs.hLockIff
    hQIn := hs.hQIn
    hOrder := hs.hOrder
  }

theorem inv_step (s : St) (e : Ev) (hs : Inv s) : Inv (step s e) :=
  inv_now _ _ (inv_stepEv s e hs)

theorem inv_foldl (tr : List Ev) (s : St) (hs : Inv s) : Inv (tr.foldl step s) := by
  induction tr generalizing s with
  | nil => exact hs
  | cons e tr ih => exact ih (step s e) (inv_step s e hs)

theorem inv_run (tr : List Ev) : Inv (run tr) :=
  inv_foldl tr st0 inv_st0

theorem stepEv_cancelled (s : St) (e : Ev) (tid : Nat) (hs : Inv s) (hlt : tid < s.ntasks)
    (hc : (s.tasks tid).status = .cancelled) :
    tid < (stepEv s e).ntasks ∧ ((stepEv s e).tasks tid).status = .cancelled := by
  cases e with
  | enqueue c ty =>
      show tid < ((queue_task s c ty).1).ntasks ∧ (((queue_task s c ty).1).tasks tid).status = .cancelled
      cases h : s.cmap c with
      | some r =>
          rw [queue_task_some s c ty r h]
          dsimp only
          exact ⟨Nat.lt_succ_of_lt hlt, by rw [upd_ne _ _ _ (Nat.ne_of_lt hlt)]; exact hc⟩
      | none =>
          rw [queue_task_none s c ty h]
          dsimp only
          exact ⟨Nat.lt_succ_of_lt hlt, by rw [upd_ne _ _ _ (Nat.ne_of_lt hlt)]; exact hc⟩
  | startP c =>
      show tid < (start_processor s c).ntasks ∧ ((start_processor s c).tasks tid).status = .cancelled
      unfold start_processor
      dsimp only
      cases h : s.cmap c with
      | some r =>
          rw [gcq_some s c r h]
          dsimp only
          split <;> exact ⟨hlt, hc⟩
      | none =>
          rw [gcq_none s c h]
          dsimp only
          split <;> exact ⟨hlt, hc⟩
  | cancel tid2 =>
      show tid < ((cancel_task s tid2).1).ntasks ∧ (((cancel_task s tid2).1).tasks tid).status = .cancelled
      by_cases hok : tid2 < s.ntasks ∧ (s.tasks tid2).status = .queued
      · rw [cancel_task_pos s tid2 hok.1 hok.2]
        dsimp only
        have hne : tid ≠ tid2 := by
          intro he
          rw [he, hok.2] at hc
          cases hc
        exact ⟨hlt, by rw [upd_ne _ _ _ hne]; exact hc⟩
      · rw [cancel_task_neg s tid2 hok]
        exact ⟨hlt, hc⟩
  | clear c =>
      show tid < ((clear_queue s c).1).ntasks ∧ (((clear_queue s c).1).tasks tid).status = .cancelled
      cases h : s.cmap c with
      | none =>
          rw [clear_queue_none s c h]
          exact ⟨hlt, hc⟩
      | some r =>
          rw [clear_queue_some s c r h]
          dsimp only
          refine ⟨hlt, ?_⟩
          rw [if_neg (fun hcnd => by rw [hc] at hcnd; exact absurd hcnd.2.2 (by decide))]
          exact hc
  | procRun p =>
      show tid < (procRunStep s p).ntasks ∧ ((procRunStep s p).tasks tid).status = .cancelled
      by_cases h1 : p < s.nprocs
      · cases hw : (s.procs p).st with
        | notStarted =>
            unfold procRunStep
            rw [if_pos h1, hw]
            dsimp only
            cases h : s.cmap ((s.procs p).c) with
            | some r =>
                rw [gcq_some _ _ r h]
                dsimp only
                split <;> exact ⟨hlt, hc⟩
            | none =>
                rw [gcq_none _ _ h]
                dsimp only
                split <;> exact ⟨hlt, hc⟩
        | waiting r => unfold procRunStep; rw [if_pos h1, hw]; exact ⟨hlt, hc⟩
        | acquiring r t => unfold procRunStep; rw [if_pos h1, hw]; exact ⟨hlt, hc⟩
        | handling r t => unfold procRunStep; rw [if_pos h1, hw]; exact ⟨hlt, hc⟩
        | done => unfold procRunStep; rw [if_pos h1, hw]; exact ⟨hlt, hc⟩
      · unfold procRunStep
        rw [if_neg h1]
        exact ⟨hlt, hc⟩
  | procNext p =>
      show tid < (procNextStep s p).ntasks ∧ ((procNextStep s p).tasks tid).status = .cancelled
      by_cases h1 : p < s.nprocs
      · cases hw : (s.procs p).st with
        | waiting r =>
            cases hqe : (s.heap r).queue with
            | nil =>
                unfold procNextStep
                rw [if_pos h1, hw]
                dsimp only
                rw [hqe]
                exact ⟨hlt, hc⟩
            | cons t rest =>
                by_cases hcanc : (s.tasks t).status = .cancelled
                · rw [procNext_skip s p r t rest h1 hw hqe hcanc]
                  exact ⟨hlt, hc⟩
                · unfold procNextStep
                  rw [if_pos h1, hw]
                  dsimp only
                  rw [hqe]
                  dsimp only
                  rw [if_neg hcanc]
                  have hnt : t ≠ tid := by
                    intro he
                    rw [he, hc] at hcanc
                    exact hcanc rfl
                  split
                  · exact ⟨hlt, hc⟩
                  · exact ⟨hlt, by dsimp only; rw [upd_ne _ _ _ (fun he => hnt he.symm)]; exact hc⟩
        | notStarted => unfold procNextStep; rw [if_pos h1, hw]; exact ⟨hlt, hc⟩
        | acquiring r t => unfold procNextStep; rw [if_pos h1, hw]; exact ⟨hlt, hc⟩
        | handling r t => unfold procNextStep; rw [if_pos h1, hw]; exact ⟨hlt, hc⟩
        | done => unfold procNextStep; rw [if_pos h1, hw]; exact ⟨hlt, hc⟩
      · unfold procNextStep
        rw [if_neg h1]
        exact ⟨hlt, hc⟩
  | procAcquire p =>
      show tid < (procAcquireStep s p).ntasks ∧ ((procAcquireStep s p).tasks tid).status = .cancelled
      by_cases h1 : p < s.nprocs
      · cases hw : (s.procs p).st with
        | acquiring r t =>
            have h0 := hs.hProc p h1
            unfold ProcOK at h0
            rw [hw] at h0
            exact h0.elim
        | notStarted => unfold procAcquireStep; rw [if_pos h1, hw]; exact ⟨hlt, hc⟩
        | waiting r => unfold procAcquireStep; rw [if_pos h1, hw]; exact ⟨hlt, hc⟩
        | handling r t => unfold procAcquireStep; rw [if_pos h1, hw]; exact ⟨hlt, hc⟩
        | done => unfold procAcquireStep; rw [if_pos h1, hw]; exact ⟨hlt, hc⟩
      · unfold procAcquireStep
        rw [if_neg h1]
        exact ⟨hlt, hc⟩
  | procFinish p ok err =>
      show tid < (procFinishStep s p ok err).ntasks ∧ ((procFinishStep s p ok err).tasks tid).status = .cancelled
      by_cases h1 : p < s.nprocs
      · cases hw : (s.procs p).st with
        | handling r t =>
            have h0 := hs.hProc p h1
            unfold ProcOK at h0
            rw [hw] at h0
            obtain ⟨-, -, -, -, b5⟩ := h0
            have hnt : t ≠ tid := by
              intro he
              rw [he, hc] at b5
              cases b5
            rw [procFinish_pos s p r t ok err h1 hw]
            dsimp only
            exact ⟨hlt, by rw [upd_ne _ _ _ (fun he => hnt he.symm)]; exact hc⟩
        | notStarted => unfold procFinishStep; rw [if_pos h1, hw]; exact ⟨hlt, hc⟩
        | waiting r => unfold procFinishStep; rw [if_pos h1, hw]; exact ⟨hlt, hc⟩
        | acquiring r t => unfold procFinishStep; rw [if_pos h1, hw]; exact ⟨hlt, hc⟩
        | done => unfold procFinishStep; rw [if_pos h1, hw]; exact ⟨hlt, hc⟩
      · unfold procFinishStep
        rw [if_neg h1]
        exact ⟨hlt, hc⟩
  | procTimeout p =>
      show tid < (procTimeoutStep s p).ntasks ∧ ((procTimeoutStep s p).tasks tid).status = .cancelled
      by_cases h1 : p < s.nprocs
      · cases hw : (s.procs p).st with
        | waiting r =>
            by_cases hqe : (s.heap r).queue = []
            · rw [procTimeout_pos s p r h1 hw hqe]
              exact ⟨hlt, hc⟩
            · unfold procTimeoutStep
              rw [if_pos h1, hw]
              dsimp only
              rw [if_neg hqe]
              exact ⟨hlt, hc⟩
        | notStarted => unfold procTimeoutStep; rw [if_pos h1, hw]; exact ⟨hlt, hc⟩
        | acquiring r t => unfold procTimeoutStep; rw [if_pos h1, hw]; exact ⟨hlt, hc⟩
        | handling r t => unfold procTimeoutStep; rw [if_pos h1, hw]; exact ⟨hlt, hc⟩
        | done => unfold procTimeoutStep; rw [if_pos h1, hw]; exact ⟨hlt, hc⟩
      · unfold procTimeoutStep
        rw [if_neg h1]
        exact ⟨hlt, hc⟩

theorem foldl_cancelled (tr : List Ev) (s : St) (tid : Nat) (hs : Inv s)
    (hlt : tid < s.ntasks) (hc : (s.tasks tid).status = .cancelled) :
    ((tr.foldl step s).tasks tid).status = .cancelled := by
  induction tr generalizing s with
  | nil => exact hc
  | cons e tr ih =>
      obtain ⟨hlt', hc'⟩ := stepEv_cancelled s e tid hs hlt hc
      exact ih (step s e) (inv_step s e hs) hlt' hc'

end TaskQueue

namespace TaskQueue

/-- C1: the claim says the `processor_running` flag is true exactly when a processing
loop is active, and that after a ClearQueue during an active processor, a later
Enqueue + StartProcessor starts a new loop running the new task.  The code violates
this: `clear_queue` installs a fresh `ContainerQueue` that copies `processor_running
= True`, the old processor clears the flag only on its own (now stale) object when it
exits, so the registered object's flag stays true forever, `start_processor` is a
permanent no-op, and the newly enqueued task stays QUEUED.  This theorem evaluates the
model on that trace: after enqueue/start/run/clear/finish/timeout/enqueue/start, no
processor coroutine is active, the current queue object's flag is still true, the new
task is still QUEUED, and a further `start_processor` call changes nothing. -/
theorem c1_clear_queue_stale_flag :
    activeProcs (run [.enqueue "c1" "t", .startP "c1", .procRun 0, .procNext 0, .clear "c1", .procFinish 0 true "", .procTimeout 0, .enqueue "c1" "t", .startP "c1"]) = 0
    ∧ (run [.enqueue "c1" "t", .startP "c1", .procRun 0, .procNext 0, .clear "c1", .procFinish 0 true "", .procTimeout 0, .enqueue "c1" "t", .startP "c1"]).cmap "c1" = some 1
    ∧ ((run [.enqueue "c1" "t", .startP "c1", .procRun 0, .procNext 0, .clear "c1", .procFinish 0 true "", .procTimeout 0, .enqueue "c1" "t", .startP "c1"]).heap 1).processorRunning = true
    ∧ ((run [.enqueue "c1" "t", .startP "c1", .procRun 0, .procNext 0, .clear "c1", .procFinish 0 true "", .procTimeout 0, .enqueue "c1" "t", .startP "c1"]).tasks 1).status = .queued
    ∧ (start_processor (run [.enqueue "c1" "t", .startP "c1", .procRun 0, .procNext 0, .clear "c1", .procFinish 0 true "", .procTimeout 0, .enqueue "c1" "t", .startP "c1"]) "c1").nprocs
        = (run [.enqueue "c1" "t", .startP "c1", .procRun 0, .procNext 0, .clear "c1", .procFinish 0 true "", .procTimeout 0, .enqueue "c1" "t", .startP "c1"]).nprocs
    ∧ ((start_processor (run [.enqueue "c1" "t", .startP "c1", .procRun 0, .procNext 0, .clear "c1", .procFinish 0 true "", .procTimeout 0, .enqueue "c1" "t", .startP "c1"]) "c1").tasks 1).status = .queued := by
  decide

/-- C2: within one container tasks run in strict enqueue (FIFO) order, one at a time:
in every reachable state at most one task per container is RUNNING, and whenever a
later-enqueued task of a container has started (RUNNING or terminal-after-running),
every earlier-enqueued task of that container is already terminal; across distinct
containers execution may interleave, witnessed by a reachable state with two tasks of
different containers RUNNING simultaneously. -/
theorem c2_fifo_per_container :
    (∀ (tr : List Ev) (i j : Nat), i < (run tr).ntasks → j < (run tr).ntasks →
        ((run tr).tasks i).status = .running → ((run tr).tasks j).status = .running →
        ((run tr).tasks i).container = ((run tr).tasks j).container → i = j)
    ∧ (∀ (tr : List Ev) (i j : Nat), i < (run tr).ntasks → j < (run tr).ntasks → i < j →
        ((run tr).tasks i).container = ((run tr).tasks j).container →
        startedS (((run tr).tasks j).status) → terminalS (((run tr).tasks i).status))
    ∧ ((run [.enqueue "a" "t", .enqueue "b" "t", .startP "a", .startP "b", .procRun 0, .procRun 1, .procNext 0, .procNext 1]).tasks 0).status = .running
    ∧ ((run [.enqueue "a" "t", .enqueue "b" "t", .startP "a", .startP "b", .procRun 0, .procRun 1, .procNext 0, .procNext 1]).tasks 1).status = .running
    ∧ ((run [.enqueue "a" "t", .enqueue "b" "t", .startP "a", .startP "b", .procRun 0, .procRun 1, .procNext 0, .procNext 1]).tasks 0).container
        ≠ ((run [.enqueue "a" "t", .enqueue "b" "t", .startP "a", .startP "b", .procRun 0, .procRun 1, .procNext 0, .procNext 1]).tasks 1).container := by
  refine ⟨?_, ?_, by decide, by decide, by decide⟩
  · intro tr i j hi hj hri hrj hcc
    have hs := inv_run tr
    obtain ⟨p, hp, r, hh⟩ := hs.hRun i hi hri
    obtain ⟨q, hq, r', hh'⟩ := hs.hRun j hj hrj
    by_cases hpq : p = q
    · rw [hpq, hh'] at hh
      injection hh with e1 e2
      exact e2.symm
    · exfalso
      have h0 := hs.hProc p hp
      have h0' := hs.hProc q hq
      unfold ProcOK at h0 h0'
      rw [hh] at h0
      rw [hh'] at h0'
      obtain ⟨-, -, -, b4, -⟩ := h0
      obtain ⟨-, -, -, b4', -⟩ := h0'
      apply hs.hOne p q hp hq hpq (by rw [hh]; rfl) (by rw [hh']; rfl)
      rw [← b4, ← b4', hcc]
  · intro tr i j hi hj hij hcc hstj
    exact (inv_run tr).hOrder i j hi hj hij hcc hstj

/-- C2 witness: on the concrete trace that enqueues two tasks for container "c" and
processes the first to completion before dispatching the second, the theorem yields
that task 0 is terminal once task 1 has started. -/
theorem c2_fifo_per_container_witness :
    terminalS (((run [.enqueue "c" "t", .enqueue "c" "t", .startP "c", .procRun 0, .procNext 0, .procFinish 0 true "", .procNext 0]).tasks 0).status) :=
  c2_fifo_per_container.2.1
    [.enqueue "c" "t", .enqueue "c" "t", .startP "c", .procRun 0, .procNext 0, .procFinish 0 true "", .procNext 0]
    0 1 (by decide) (by decide) (by decide) (by decide) (by decide)

end TaskQueue

namespace TaskQueue

/-- C4: `cancel_task` returns true iff the task exists and is QUEUED; in that case it
marks exactly that task CANCELLED (all other tasks unchanged) and the task is never
subsequently run — its status stays CANCELLED in every later reachable state, so it
never becomes RUNNING; when it returns false (unknown, running, or terminal task) the
whole state is unchanged, so a running task's eventual outcome is unaffected. -/
theorem c4_cancel_spec :
    (∀ (s : St) (tid : Nat),
        (cancel_task s tid).2 = true ↔ (tid < s.ntasks ∧ (s.tasks tid).status = .queued))
    ∧ (∀ (s : St) (tid : Nat), (cancel_task s tid).2 = true →
        ((cancel_task s tid).1.tasks tid).status = .cancelled
        ∧ ∀ i, i ≠ tid → (cancel_task s tid).1.tasks i = s.tasks i)
    ∧ (∀ (s : St) (tid : Nat), (cancel_task s tid).2 = false → (cancel_task s tid).1 = s)
    ∧ (∀ (tr1 tr2 : List Ev) (tid : Nat), (cancel_task (run tr1) tid).2 = true →
        ((run (tr1 ++ Ev.cancel tid :: tr2)).tasks tid).status = .cancelled) := by
  have ha : ∀ (s : St) (tid : Nat),
      (cancel_task s tid).2 = true ↔ (tid < s.ntasks ∧ (s.tasks tid).status = .queued) := by
    intro s tid
    constructor
    · intro htrue
      by_cases hok : tid < s.ntasks ∧ (s.tasks tid).status = .queued
      · exact hok
      · rw [cancel_task_neg s tid hok] at htrue
        cases htrue
    · intro hok
      rw [cancel_task_pos s tid hok.1 hok.2]
  refine ⟨ha, ?_, ?_, ?_⟩
  · intro s tid htrue
    obtain ⟨hlt, hq⟩ := (ha s tid).1 htrue
    rw [cancel_task_pos s tid hlt hq]
    dsimp only
    refine ⟨by rw [upd_self], ?_⟩
    intro i hne
    rw [upd_ne _ _ _ hne]
  · intro s tid hfalse
    by_cases hok : tid < s.ntasks ∧ (s.tasks tid).status = .queued
    · rw [cancel_task_pos s tid hok.1 hok.2] at hfalse
      cases hfalse
    · rw [cancel_task_neg s tid hok]
  · intro tr1 tr2 tid htrue
    obtain ⟨hlt, hq⟩ := (ha (run tr1) tid).1 htrue
    have hs := inv_run tr1
    show (((tr1 ++ Ev.cancel tid :: tr2).foldl step st0).tasks tid).status = .cancelled
    rw [List.foldl_append, List.foldl_cons]
    have hstep : Inv (step (run tr1) (Ev.cancel tid)) := inv_step _ _ hs
    apply foldl_cancelled tr2 _ tid hstep
    · show tid < (stepEv (run tr1) (Ev.cancel tid)).ntasks
      show tid < (cancel_task (run tr1) tid).1.ntasks
      rw [cancel_task_pos _ tid hlt hq]
      exact hlt
    · show ((cancel_task (run tr1) tid).1.tasks tid).status = .cancelled
      rw [cancel_task_pos _ tid hlt hq]
      dsimp only
      rw [upd_self]

/-- C4 witness: on a run with two queued tasks, cancelling task 1 succeeds and after
the processor drains the queue the cancelled task is still CANCELLED (it never ran). -/
theorem c4_cancel_spec_witness :
    ((run ([.enqueue "c" "t", .enqueue "c" "t"] ++ Ev.cancel 1 :: [.startP "c", .procRun 0, .procNext 0, .procFinish 0 true "", .procNext 0, .procTimeout 0])).tasks 1).status = .cancelled :=
  c4_cancel_spec.2.2.2 [.enqueue "c" "t", .enqueue "c" "t"]
    [.startP "c", .procRun 0, .procNext 0, .procFinish 0 true "", .procNext 0, .procTimeout 0]
    1 (by decide)

/-- C5: on a container with a registered queue, N queued tasks and at most one running
task, `clear_queue` returns N, marks exactly the queued tasks of that container
CANCELLED, installs a fresh empty queue object that keeps the lock reference, the
running-task reference and the processor flag, and changes nothing else: other tasks,
other heap objects, the lock states, the processors, and other containers' queue map
entries are untouched. -/
theorem c5_clear_queue_frame :
    ∀ (s : St) (c : String) (r : Nat), s.cmap c = some r → countStatus s c .running ≤ 1 →
      (clear_queue s c).2 = countStatus s c .queued
      ∧ (∀ i, i < s.ntasks → (s.tasks i).container = c → (s.tasks i).status = .queued →
          (clear_queue s c).1.tasks i
            = { s.tasks i with status := .cancelled, completedAt := some s.now })
      ∧ (∀ i, i < s.ntasks → ¬((s.tasks i).container = c ∧ (s.tasks i).status = .queued) →
          (clear_queue s c).1.tasks i = s.tasks i)
      ∧ (∀ i, s.ntasks ≤ i → (clear_queue s c).1.tasks i = s.tasks i)
      ∧ (clear_queue s c).1.cmap c = some s.nheap
      ∧ (clear_queue s c).1.heap s.nheap
          = ⟨c, [], (s.heap r).lockRef, (s.heap r).runningTask, (s.heap r).processorRunning⟩
      ∧ (∀ r', r' < s.nheap → (clear_queue s c).1.heap r' = s.heap r')
      ∧ (clear_queue s c).1.locks = s.locks
      ∧ (clear_queue s c).1.nprocs = s.nprocs
      ∧ (clear_queue s c).1.procs = s.procs
      ∧ (clear_queue s c).1.ntasks = s.ntasks
      ∧ (∀ c', c' ≠ c → (clear_queue s c).1.cmap c' = s.cmap c') := by
  intro s c r h hrun
  rw [clear_queue_some s c r h]
  dsimp only
  refine ⟨rfl, ?_, ?_, ?_, by rw [updS_self], by rw [upd_self], ?_, rfl, rfl, rfl, rfl, ?_⟩
  · intro i hlt hcc hq
    rw [if_pos ⟨hlt, hcc, hq⟩]
  · intro i hlt hni
    rw [if_neg (fun hcnd => hni ⟨hcnd.2.1, hcnd.2.2⟩)]
  · intro i hge
    rw [if_neg (fun hcnd => absurd hcnd.1 (Nat.not_lt.mpr hge))]
  · intro r' hr'
    rw [upd_ne _ _ _ (Nat.ne_of_lt hr')]
  · intro c' hne
    rw [updS_ne _ _ _ hne]

/-- C5 witness: on a reachable state with one running and two queued tasks for
container "c", `clear_queue` returns the queued count (2). -/
theorem c5_clear_queue_frame_witness :
    (clear_queue (run [.enqueue "c" "t", .enqueue "c" "t", .enqueue "c" "t", .startP "c", .procRun 0, .procNext 0]) "c").2
      = countStatus (run [.enqueue "c" "t", .enqueue "c" "t", .enqueue "c" "t", .startP "c", .procRun 0, .procNext 0]) "c" .queued :=
  (c5_clear_queue_frame
    (run [.enqueue "c" "t", .enqueue "c" "t", .enqueue "c" "t", .startP "c", .procRun 0, .procNext 0])
    "c" 0 (by decide) (by decide)).1

theorem countStatus_zero (s : St) (c : String) (st : TStatus)
    (h : ∀ i, i < s.ntasks → (s.tasks i).container ≠ c) : countStatus s c st = 0 := by
  unfold countStatus
  rw [List.countP_eq_zero]
  intro a ha
  simp only [decide_eq_true_eq]
  intro hx
  exact h a (List.mem_range.mp ha) hx.1

/-- C10: for a container id with no queue entry and no tasks, `get_queue_status` is
total and returns an all-zero snapshot with no running-task summary; being a pure
function of the state (it mirrors `_container_queues.get`, not
`_get_container_queue`), it creates no scheduler state. -/
theorem c10_status_fresh_container :
    ∀ (s : St) (c : String), s.cmap c = none →
      (∀ i, i < s.ntasks → (s.tasks i).container ≠ c) →
      get_queue_status s c = ⟨c, 0, 0, 0, 0, 0, none⟩ := by
  intro s c hcm hno
  unfold get_queue_status
  rw [hcm]
  dsimp only
  rw [countStatus_zero s c .queued hno, countStatus_zero s c .completed hno,
    countStatus_zero s c .failed hno, countStatus_zero s c .cancelled hno]

/-- C10 witness: the empty initial state with container "x". -/
theorem c10_status_fresh_container_witness :
    get_queue_status st0 "x" = ⟨"x", 0, 0, 0, 0, 0, none⟩ :=
  c10_status_fresh_container st0 "x" (by decide) (by decide)

end TaskQueue

namespace Claude

/-- C3 counterexample: the claim says a task in a terminal status never changes status
again.  Two interleavings of the code refute it.  First, `deny_task` sets DENIED
unconditionally, so a COMPLETED task (terminal) moves to DENIED.  Second, main.py runs
`confirm_task` as a background `asyncio.create_task` while serving `claude_deny`
concurrently: a task confirmed from PENDING_APPROVAL sits at the un-timed
`await proc.communicate()`; `deny_task` sets the terminal status DENIED; when the
subprocess finishes, the resumption unconditionally overwrites DENIED with COMPLETED —
a terminal-status change not performed by Deny. -/
theorem c3_deny_terminal_counterexample :
    (((deny_task (confirm_task_finish (confirm_task_begin (start_task reg0 "p" "main" none (PlanOutcome.success "plan")).1 0).1 0 (ExecOutcome.success "done")).1 0).2 = true)
      ∧ (((deny_task (confirm_task_finish (confirm_task_begin (start_task reg0 "p" "main" none (PlanOutcome.success "plan")).1 0).1 0 (ExecOutcome.success "done")).1 0).1.tasks 0).status = CStatus.denied)
      ∧ (((confirm_task_finish (confirm_task_begin (start_task reg0 "p" "main" none (PlanOutcome.success "plan")).1 0).1 0 (ExecOutcome.success "done")).1.tasks 0).status = CStatus.completed))
    ∧ ((((deny_task (confirm_task_begin (start_task reg0 "p" "main" none (PlanOutcome.success "plan")).1 0).1 0).1.tasks 0).status = CStatus.denied)
      ∧ (((confirm_task_finish (deny_task (confirm_task_begin (start_task reg0 "p" "main" none (PlanOutcome.success "plan")).1 0).1 0).1 0 (ExecOutcome.success "done")).1.tasks 0).status = CStatus.completed))
    ∧ CStatus.denied ≠ CStatus.completed := by
  decide

/-- C3 (amended): every status change follows Planning → PendingApproval → Running →
{Completed, Failed} with Planning → Failed and PendingApproval → Denied — except for
two loosenesses: `deny_task` sets DENIED regardless of the current status, and the
resumption of a Confirm execution already in flight (`confirm_task` runs as a
background task and waits on the subprocess without a timeout) writes COMPLETED or
FAILED regardless of the task's current status — including DENIED, so a Deny issued
while the execution runs is itself overwritten when the execution finishes.
`confirm_task_begin` on a known task whose status is not PendingApproval sends an
InvalidState error naming the actual status, changes no task and spawns no execution;
on an unknown id it reports "Task not found" and changes nothing; on a PendingApproval
task it sets exactly that task to RUNNING and spawns the execution; begin, finish and
deny touch no task other than the addressed one. -/
theorem c3_status_graph_amended :
    (∀ (reg : CReg) (tid : Nat), tid < reg.n →
        (reg.tasks tid).status ≠ .pendingApproval →
        confirm_task_begin reg tid
          = (reg, [.claudeError (reg.tasks tid).containerId tid
              ("Task is not pending approval (status: " ++ (reg.tasks tid).status.value ++ ")")],
             false))
    ∧ (∀ (reg : CReg) (tid : Nat), tid < reg.n →
        (reg.tasks tid).status = .pendingApproval →
        ((confirm_task_begin reg tid).1.tasks tid).status = .running
        ∧ (confirm_task_begin reg tid).2 = ([], true)
        ∧ (∀ j, j ≠ tid → (confirm_task_begin reg tid).1.tasks j = reg.tasks j))
    ∧ (∀ (reg : CReg) (tid : Nat) (o : ExecOutcome),
        (((confirm_task_finish reg tid o).1.tasks tid).status
            = (match o with
               | .success _ => CStatus.completed
               | .nonzero _ => CStatus.failed
               | .raised _ => CStatus.failed))
        ∧ (∀ j, j ≠ tid → (confirm_task_finish reg tid o).1.tasks j = reg.tasks j))
    ∧ (∀ (reg : CReg) (tid : Nat), tid < reg.n →
        (deny_task reg tid).2 = true
        ∧ ((deny_task reg tid).1.tasks tid).status = .denied
        ∧ (∀ j, j ≠ tid → (deny_task reg tid).1.tasks j = reg.tasks j))
    ∧ (∀ (reg : CReg) (tid : Nat), ¬tid < reg.n → deny_task reg tid = (reg, false))
    ∧ (∀ (reg : CReg) (tid : Nat), ¬tid < reg.n →
        confirm_task_begin reg tid = (reg, [.claudeError "main" tid "Task not found"], false))
    ∧ (∀ (reg : CReg) (prompt cid : String) (br : Option String) (o : PlanOutcome),
        (start_task reg prompt cid br o).2.status = .pendingApproval
        ∨ (start_task reg prompt cid br o).2.status = .failed) := by
  refine ⟨?_, ?_, ?_, ?_, ?_, ?_, ?_⟩
  · intro reg tid h1 hnp
    unfold confirm_task_begin
    rw [if_pos h1]
    dsimp only
    rw [if_neg hnp]
  · intro reg tid h1 hp
    unfold confirm_task_begin
    rw [if_pos h1]
    dsimp only
    rw [if_pos hp]
    refine ⟨by dsimp only; rw [upd_self], rfl, ?_⟩
    intro j hne
    dsimp only
    rw [upd_ne _ _ _ hne]
  · intro reg tid o
    cases o with
    | success out =>
        refine ⟨by unfold confirm_task_finish; dsimp only; rw [upd_self], ?_⟩
        intro j hne
        unfold confirm_task_finish
        dsimp only
        rw [upd_ne _ _ _ hne]
    | nonzero err =>
        refine ⟨by unfold confirm_task_finish; dsimp only; rw [upd_self], ?_⟩
        intro j hne
        unfold confirm_task_finish
        dsimp only
        rw [upd_ne _ _ _ hne]
    | raised m =>
        refine ⟨by unfold confirm_task_finish; dsimp only; rw [upd_self], ?_⟩
        intro j hne
        unfold confirm_task_finish
        dsimp only
        rw [upd_ne _ _ _ hne]
  · intro reg tid h1
    unfold deny_task
    rw [if_pos h1]
    dsimp only
    refine ⟨rfl, by rw [upd_self], ?_⟩
    intro j hne
    rw [upd_ne _ _ _ hne]
  · intro reg tid h1
    unfold deny_task
    rw [if_neg h1]
  · intro reg tid h1
    unfold confirm_task_begin
    rw [if_neg h1]
  · intro reg prompt cid br o
    cases o with
    | success out => exact Or.inl rfl
    | nonzero err => exact Or.inr rfl
    | timedOut => exact Or.inr rfl
    | notFound => exact Or.inr rfl
    | raised m => exact Or.inr rfl

/-- C3 amended witness: confirming a FAILED task reports the InvalidState error naming
the actual status, leaves the registry unchanged and spawns no execution. -/
theorem c3_status_graph_amended_witness :
    confirm_task_begin (start_task reg0 "p" "main" none (PlanOutcome.nonzero "boom")).1 0
      = ((start_task reg0 "p" "main" none (PlanOutcome.nonzero "boom")).1,
          [.claudeError ((start_task reg0 "p" "main" none (PlanOutcome.nonzero "boom")).1.tasks 0).containerId 0
            ("Task is not pending approval (status: "
              ++ ((start_task reg0 "p" "main" none (PlanOutcome.nonzero "boom")).1.tasks 0).status.value ++ ")")],
          false) :=
  c3_status_graph_amended.1 (start_task reg0 "p" "main" none (PlanOutcome.nonzero "boom")).1 0
    (by decide) (by decide)

/-- C6: `start_task` is total — no exception escapes; it always registers exactly one
new task, and the returned task is, by planner outcome: exit 0 ⇒ PENDING_APPROVAL with
the trimmed stdout stored as the plan; non-zero exit ⇒ FAILED with the trimmed stderr
(or "Claude planning failed" when stderr is blank); timeout ⇒ FAILED with "Claude
planning timed out"; missing executable ⇒ FAILED with "Claude CLI not found. Is it
installed?"; any other exception ⇒ FAILED with its message. -/
theorem c6_start_task_outcomes :
    ∀ (reg : CReg) (prompt cid : String) (br : Option String) (o : PlanOutcome),
      (start_task reg prompt cid br o).1.n = reg.n + 1
      ∧ (start_task reg prompt cid br o).1.tasks reg.n = (start_task reg prompt cid br o).2
      ∧ (∀ j, j ≠ reg.n → (start_task reg prompt cid br o).1.tasks j = reg.tasks j)
      ∧ (match o with
          | .success out => (start_task reg prompt cid br o).2
              = ⟨reg.n, prompt, cid, br, some out.trim, .pendingApproval, none, none⟩
          | .nonzero err => (start_task reg prompt cid br o).2
              = ⟨reg.n, prompt, cid, br, none, .failed, none,
                  some (if err.trim = "" then "Claude planning failed" else err.trim)⟩
          | .timedOut => (start_task reg prompt cid br o).2
              = ⟨reg.n, prompt, cid, br, none, .failed, none, some "Claude planning timed out"⟩
          | .notFound => (start_task reg prompt cid br o).2
              = ⟨reg.n, prompt, cid, br, none, .failed, none, some "Claude CLI not found. Is it installed?"⟩
          | .raised m => (start_task reg prompt cid br o).2
              = ⟨reg.n, prompt, cid, br, none, .failed, none, some m⟩) := by
  intro reg prompt cid br o
  refine ⟨rfl, ?_, ?_, ?_⟩
  · unfold start_task
    dsimp only
    rw [upd_self]
  · intro j hne
    unfold start_task
    dsimp only
    rw [upd_ne _ _ _ hne]
  · cases o with
    | success out => rfl
    | nonzero err => rfl
    | timedOut => rfl
    | notFound => rfl
    | raised m => rfl

/-- C6 witness: a timed-out planning run yields a FAILED task with the timeout
message. -/
theorem c6_start_task_outcomes_witness :
    (start_task reg0 "p" "main" none PlanOutcome.timedOut).2
      = ⟨0, "p", "main", none, none, .failed, none, some "Claude planning timed out"⟩ :=
  (c6_start_task_outcomes reg0 "p" "main" none PlanOutcome.timedOut).2.2.2

end Claude

namespace Git

/-- C7 counterexample: for the branch "my_branch", the source keeps the underscore
(`sanitize_branch_name "my_branch" = "my_branch"`) while the claim's sanitize strips
every non-alphanumeric character other than the dashes from slashes, yielding
"mybranch"; with a filesystem where only `wt/my_branch` exists, the code resolves to
the worktree while the claim's description falls back to the default directory. -/
theorem c7_sanitize_counterexample :
    sanitize_branch_name "my_branch" = "my_branch"
    ∧ claimedSanitize "my_branch" = "mybranch"
    ∧ ("my_branch" : String) ≠ "mybranch"
    ∧ get_worktree_path "wd" "wt" (fun pth => pth == "wt/my_branch") (some "my_branch") = "wt/my_branch"
    ∧ claimedResolvePath "wd" "wt" (fun pth => pth == "wt/my_branch") (some "my_branch") = "wd"
    ∧ ("wt/my_branch" : String) ≠ "wd" := by
  decide

/-- C7 (amended): ResolvePath with no branch (or an empty branch string, which Python
treats as falsy) returns the default working directory; otherwise it computes the
token by replacing slashes and backslashes with dashes and stripping every other
character that is not alphanumeric, an underscore, or a dash, and returns
`<worktrees-root>/<token>` when that directory exists on disk, else the default
working directory — i.e. the source function coincides with the resolver written
from the amended claim's words on every input. -/
theorem c7_resolve_path_amended :
    ∀ (workDir worktreesDir : String) (fs : String → Bool) (branch : Option String),
      get_worktree_path workDir worktreesDir fs branch
        = amendedResolvePath workDir worktreesDir fs branch := by
  intro workDir worktreesDir fs branch
  cases branch with
  | none => rfl
  | some b =>
      unfold get_worktree_path amendedResolvePath sanitize_branch_name
      dsimp only

/-- C8: `create_worktree` is idempotent — if a first call returns `created = true`
(which requires the `git worktree add` subprocess to have exited 0 and hence to have
created the worktree directory), a second call with the same branch succeeds with
`existed = true` and the same path, deciding existence purely by the filesystem check
(zero git subprocesses are invoked by the second call). -/
theorem c8_create_worktree_idempotent :
    ∀ (worktreesDir : String) (fs : String → Bool) (be1 be2 : Bool) (o1 o2 : GitAdd) (b : String),
      (create_worktree worktreesDir fs be1 o1 b).2.1.created = true →
      (create_worktree worktreesDir (create_worktree worktreesDir fs be1 o1 b).1 be2 o2 b).2.1.success = true
      ∧ (create_worktree worktreesDir (create_worktree worktreesDir fs be1 o1 b).1 be2 o2 b).2.1.existed = true
      ∧ (create_worktree worktreesDir (create_worktree worktreesDir fs be1 o1 b).1 be2 o2 b).2.1.path
          = (create_worktree worktreesDir fs be1 o1 b).2.1.path
      ∧ (create_worktree worktreesDir (create_worktree worktreesDir fs be1 o1 b).1 be2 o2 b).2.2 = 0 := by
  intro wtd fs be1 be2 o1 o2 b hcreated
  unfold create_worktree at hcreated ⊢
  dsimp only at hcreated ⊢
  by_cases hfs : updS fs wtd true (wtd ++ "/" ++ sanitize_branch_name b) = true
  · rw [if_pos hfs] at hcreated
    cases hcreated
  · rw [if_neg hfs] at hcreated ⊢
    cases o1 with
    | success =>
        dsimp only at hcreated ⊢
        have hpath : updS (updS (updS fs wtd true) (wtd ++ "/" ++ sanitize_branch_name b) true) wtd true
            (wtd ++ "/" ++ sanitize_branch_name b) = true := by
          by_cases hww : (wtd ++ "/" ++ sanitize_branch_name b) = wtd
          · rw [hww, updS_self]
          · rw [updS_ne _ _ _ hww, updS_self]
        rw [if_pos hpath]
        exact ⟨rfl, rfl, rfl, rfl⟩
    | nonzero err =>
        dsimp only at hcreated
        cases hcreated
    | raised m =>
        dsimp only at hcreated
        cases hcreated

/-- C8 witness: starting from an empty filesystem, creating the worktree for branch
"x" and calling again yields `existed = true` with the same path and no git calls. -/
theorem c8_create_worktree_idempotent_witness :
    (create_worktree "wt" (create_worktree "wt" (fun _ => false) true GitAdd.success "x").1 true GitAdd.success "x").2.1.existed = true :=
  (c8_create_worktree_idempotent "wt" (fun _ => false) true true GitAdd.success GitAdd.success "x" (by decide)).2.1

end Git

namespace AIHist

/-- C9 counterexample: a Gemini session's stored history is never trimmed — after 21
Respond calls it holds 42 role/content entries, exceeding the claimed bound of forty
entries (twenty exchanges). -/
theorem c9_gemini_unbounded_counterexample :
    (geminiIter 21).length = 42 ∧ ¬((geminiIter 21).length ≤ 40) := by
  decide

/-- C9 (amended): after every successful Respond call the stored history ends with the
new user message followed by the reply; LocalProvider sessions additionally keep
exactly the most recent entries: the stored history is at most forty entries (twenty
exchanges) and equals the trailing window of the appended history — it is
`(h ++ new pair).drop ((h ++ new pair).length - 40)`, so everything older than the
window is discarded (and when the appended history fits the window, the drop is of
zero and nothing is lost); Gemini sessions only append, with no bound. -/
theorem c9_history_window_amended :
    (∀ (h : List ChatMsg) (m c : String),
        (local_get_response_history h m c).length ≤ 40
        ∧ local_get_response_history h m c
            = (h ++ [(⟨"user", m⟩ : ChatMsg), ⟨"assistant", c⟩]).drop
                ((h ++ [(⟨"user", m⟩ : ChatMsg), ⟨"assistant", c⟩]).length - 40)
        ∧ ∃ pre, pre ++ local_get_response_history h m c
              = h ++ [(⟨"user", m⟩ : ChatMsg), ⟨"assistant", c⟩]
        ∧ local_get_response_history h m c
            = (h.drop (h.length + 2 - 40)) ++ [(⟨"user", m⟩ : ChatMsg), ⟨"assistant", c⟩])
    ∧ (∀ (h : List ChatMsg) (m rp : String),
        gemini_send_message_history h m rp = h ++ [(⟨"user", m⟩ : ChatMsg), ⟨"model", rp⟩]) := by
  constructor
  · intro h m c
    have hlen2 : (h ++ [(⟨"user", m⟩ : ChatMsg), ⟨"assistant", c⟩]).length = h.length + 2 := by
      simp
    by_cases hlen : (h ++ [(⟨"user", m⟩ : ChatMsg), ⟨"assistant", c⟩]).length > 40
    · have heq : local_get_response_history h m c
          = (h ++ [(⟨"user", m⟩ : ChatMsg), ⟨"assistant", c⟩]).drop
              ((h ++ [(⟨"user", m⟩ : ChatMsg), ⟨"assistant", c⟩]).length - 40) := by
        unfold local_get_response_history
        rw [if_pos hlen]
      refine ⟨?_, heq, ?_⟩
      · rw [heq, List.length_drop]
        omega
      · refine ⟨(h ++ [(⟨"user", m⟩ : ChatMsg), ⟨"assistant", c⟩]).take
            ((h ++ [(⟨"user", m⟩ : ChatMsg), ⟨"assistant", c⟩]).length - 40), ?_, ?_⟩
        · rw [heq, List.take_append_drop]
        · rw [heq, hlen2,
            List.drop_append_of_le_length (by rw [hlen2] at hlen; omega)]
    · have h0 : (h ++ [(⟨"user", m⟩ : ChatMsg), ⟨"assistant", c⟩]).length - 40 = 0 := by
        omega
      have heq : local_get_response_history h m c
          = h ++ [(⟨"user", m⟩ : ChatMsg), ⟨"assistant", c⟩] := by
        unfold local_get_response_history
        rw [if_neg hlen]
      refine ⟨?_, ?_, ?_⟩
      · rw [heq]
        omega
      · rw [heq, h0, List.drop_zero]
      · have h0' : h.length + 2 - 40 = 0 := by rw [hlen2] at h0; exact h0
        exact ⟨[], by rw [heq]; rfl, by rw [heq, h0', List.drop_zero]⟩
  · intro h m rp
    rfl

end AIHist
